import Mathlib

/-!
Verification development for the tbtools repository (TxBLEND file readers
and writers).  The Python sources `read.py`, `tbtools/write.py` and the
packaged copy `build/lib/tbtools/read.py` are shallowly embedded below:
input files are lists of physical lines (each line carries its trailing
newline character, as Python file iteration yields them), pandas tables
are lists of `(dateKey, value)` pairs with an explicit column name, and
fallible library calls (indexing, `pd.to_datetime`, `int(...)`) are
modelled with `Except`/`Option`.

Rational arithmetic in the model is implemented through `mkRat`-based
helper functions (`qadd`, `qdivNat`, `scale10`, ...) so that every
definition evaluates by kernel reduction; lemmas relate the helpers to
the ordinary field operations of `ℚ`.
-/

namespace TB

/-! ### Python-style character/string utilities -/

/-- Whitespace test matching Python `str.split()` / `str.strip()` on the
ASCII whitespace characters that occur in these files. -/
def isWsChar (c : Char) : Bool :=
  c = ' ' || c = '\t' || c = '\n' || c = '\r' || c = '\x0b' || c = '\x0c'

/-- Python `s.strip()` on a character list. -/
def pyStrip (l : List Char) : List Char :=
  ((l.dropWhile isWsChar).reverse.dropWhile isWsChar).reverse

/-- Python `s.split()` (split on whitespace runs, no empty tokens):
worker with an accumulator holding the current token reversed. -/
def splitWsGo : List Char → List Char → List (List Char)
  | [], acc => if acc.isEmpty then [] else [acc.reverse]
  | c :: cs, acc =>
    if isWsChar c then
      if acc.isEmpty then splitWsGo cs [] else acc.reverse :: splitWsGo cs []
    else splitWsGo cs (c :: acc)

/-- Python `s.split()`. -/
def splitWs (l : List Char) : List (List Char) := splitWsGo l []

/-- Python `s.split(sep)` for a one-character separator (keeps empty parts). -/
def splitOnChar (sep : Char) : List Char → List (List Char)
  | [] => [[]]
  | c :: cs =>
    if c = sep then [] :: splitOnChar sep cs
    else
      match splitOnChar sep cs with
      | [] => [[c]]
      | t :: ts => (c :: t) :: ts

/-- Python `s.replace(a, b, 1)` for single characters. -/
def replaceFirst (a b : Char) : List Char → List Char
  | [] => []
  | c :: cs => if c = a then b :: cs else c :: replaceFirst a b cs

/-- Python `s.replace(a, '', 1)` for a single character. -/
def removeFirst (a : Char) : List Char → List Char
  | [] => []
  | c :: cs => if c = a then cs else c :: removeFirst a cs

/-- Python `','.join(parts)` on character lists. -/
def joinChar (sep : Char) : List (List Char) → List Char
  | [] => []
  | [p] => p
  | p :: ps => p ++ sep :: joinChar sep ps

/-- Python `chunkstring(s, n+1)`: successive slices of length `n+1`
(the final chunk may be shorter).  Structural recursion on a fuel that
the nonempty-chunk step always suffices for. -/
def chunksGo (n : Nat) : Nat → List Char → List (List Char)
  | 0, _ => []
  | _, [] => []
  | fuel + 1, c :: cs => (c :: cs.take n) :: chunksGo n fuel (cs.drop n)

def chunksP (n : Nat) (l : List Char) : List (List Char) := chunksGo n l.length l

/-- Break a character list at the first occurrence of `c`; the second
component is `none` when `c` does not occur. -/
def breakAt (c : Char) : List Char → List Char × Option (List Char)
  | [] => ([], none)
  | x :: xs =>
    if x = c then ([], some xs)
    else
      let r := breakAt c xs
      (x :: r.1, r.2)

/-! ### Decimal rendering and parsing

`Nat.digits` is not kernel-reducible, so the model renders numbers with a
fuel-based digit extractor and the proofs relate it to `Nat.digits`. -/

def digitChar (d : Nat) : Char := Char.ofNat (48 + d)

def charVal (c : Char) : Nat := c.toNat - 48

def isDigitCh (c : Char) : Bool := 48 ≤ c.toNat && c.toNat ≤ 57

/-- Little-endian base-10 digits with explicit fuel. -/
def ndigs : Nat → Nat → List Nat
  | 0, _ => []
  | fuel + 1, n => if n = 0 then [] else n % 10 :: ndigs fuel (n / 10)

/-- Decimal rendering of a natural number (`str(n)` in Python). -/
def renderNat (n : Nat) : List Char :=
  if n = 0 then ['0'] else ((ndigs n n).map digitChar).reverse

/-- Decimal rendering of an integer (`str(z)` / `'%i' % z`). -/
def renderInt (z : Int) : List Char :=
  (if z < 0 then ['-'] else []) ++ renderNat z.natAbs

/-- Parse a nonempty all-digit character list as a natural number. -/
def parseNat? (l : List Char) : Option Nat :=
  if l ≠ [] ∧ l.all isDigitCh then
    some (l.foldl (fun a c => 10 * a + charVal c) 0)
  else none

/-- Parse an optionally `-`/`+`-signed integer (Python `int(...)` on a
clean token). -/
def parseInt? (l : List Char) : Option Int :=
  match l with
  | [] => none
  | c :: rest =>
    if c = '-' then (parseNat? rest).map (fun n => -(n : Int))
    else if c = '+' then (parseNat? rest).map (fun n => (n : Int))
    else (parseNat? (c :: rest)).map (fun n => (n : Int))

/-- Parse an unsigned decimal literal (`12`, `12.5`, `12.`, `.5`) as an
exact rational, built with `mkRat` so that it evaluates by reduction. -/
def parseUQ? (l : List Char) : Option ℚ :=
  match breakAt '.' l with
  | (a, none) => (parseNat? a).map (fun n => (n : ℚ))
  | (a, some b) =>
    if a.isEmpty then
      (parseNat? b).map (fun f => mkRat (f : Int) (10 ^ b.length))
    else if b.isEmpty then
      (parseNat? a).map (fun n => (n : ℚ))
    else
      match parseNat? a, parseNat? b with
      | some n, some f => some (mkRat ((n : Int) * 10 ^ b.length + f) (10 ^ b.length))
      | _, _ => none

/-- Parse a float token the way the pandas CSV readers accept the numeric
fields appearing in these formats (optional sign, decimal literal),
ignoring surrounding whitespace. -/
def parseSigned? : List Char → Option ℚ
  | [] => none
  | c :: rest =>
    if c = '-' then (parseUQ? rest).map (fun q => -q)
    else if c = '+' then parseUQ? rest
    else parseUQ? (c :: rest)

def parseQ? (l : List Char) : Option ℚ := parseSigned? (pyStrip l)

/-! ### Reducible rational helpers -/

/-- Addition on `ℚ` through `mkRat` (kernel-reducible). -/
def qadd (a b : ℚ) : ℚ := mkRat (a.num * b.den + b.num * a.den) (a.den * b.den)

/-- Division of a rational by a natural number through `mkRat`. -/
def qdivNat (a : ℚ) (n : Nat) : ℚ := mkRat a.num (a.den * n)

/-- Multiplication by 10 through `mkRat` (the `wind.dir *= 10` scaling). -/
def scale10 (q : ℚ) : ℚ := mkRat (q.num * 10) q.den

/-- Sum of a list of rationals via `qadd`. -/
def qsum (l : List ℚ) : ℚ := l.foldr qadd 0

/-- Arithmetic mean used by `pivot_table`'s default `aggfunc`. -/
def qmean (l : List ℚ) : ℚ := qdivNat (qsum l) l.length

/-- Rounding to hundredths as done by the `%6.2f` fields: the result is
the integer number of hundredths.  Implemented with `Int.fdiv` so it
evaluates by reduction; `round2_eq` relates it to `round (q * 100)`. -/
def round2 (q : ℚ) : Int := Int.fdiv (200 * q.num + (q.den : Int)) (2 * (q.den : Int))

/-- The rational with the given number of hundredths. -/
def ofHundredths (z : Int) : ℚ := mkRat z 100

/-- Two-digit zero-padded rendering of `n < 100` (the fractional part of
`'%.2f'`). -/
def pad2 (n : Nat) : List Char := if n < 10 then '0' :: renderNat n else renderNat n

/-- Rendering of `z` hundredths in the fixed `d+.dd` shape produced by
`'%.2f'` formatting. -/
def renderF2 (z : Int) : List Char :=
  (if z < 0 then ['-'] else []) ++ renderNat (z.natAbs / 100) ++ '.' :: pad2 (z.natAbs % 100)

/-- Left-pad with spaces to width `w` (`'%3i'`, `'%6.2f'`, `'%8s'`). -/
def padLeft (w : Nat) (l : List Char) : List Char :=
  List.replicate (w - l.length) ' ' ++ l

/-- Right-pad with spaces to width `w` (`'%-8s'`). -/
def padRight (w : Nat) (l : List Char) : List Char :=
  l ++ List.replicate (w - l.length) ' '

theorem qadd_eq (a b : ℚ) : qadd a b = a + b := by
  have ha : ((a.den : ℚ)) ≠ 0 := by exact_mod_cast a.den_nz
  have hb : ((b.den : ℚ)) ≠ 0 := by exact_mod_cast b.den_nz
  have ka := div_mul_cancel₀ ((a.num : ℚ)) ha
  have kb := div_mul_cancel₀ ((b.num : ℚ)) hb
  rw [Rat.num_div_den] at ka kb
  rw [qadd, Rat.mkRat_eq_div, eq_comm, eq_div_iff (by push_cast; positivity)]
  push_cast
  linear_combination ((b.den : ℚ)) * ka + ((a.den : ℚ)) * kb

theorem qdivNat_eq (a : ℚ) (n : Nat) : qdivNat a n = a / n := by
  rcases Nat.eq_zero_or_pos n with h | h
  · subst h
    simp [qdivNat]
  · rw [qdivNat, Rat.mkRat_eq_div]
    push_cast
    rw [div_mul_eq_div_div]
    rw [Rat.num_div_den]

theorem scale10_eq (q : ℚ) : scale10 q = q * 10 := by
  rw [scale10, Rat.mkRat_eq_div]
  push_cast
  rw [mul_comm (q.num : ℚ) 10, mul_div_assoc, Rat.num_div_den, mul_comm]

theorem ofHundredths_eq (z : Int) : ofHundredths z = (z : ℚ) / 100 := by
  rw [ofHundredths, Rat.mkRat_eq_div]
  norm_num

theorem round2_eq (q : ℚ) : round2 q = round (q * 100) := by
  have hden : (0 : Int) < (q.den : Int) := by exact_mod_cast q.den_pos
  have hq : ((q.den : ℚ)) ≠ 0 := by exact_mod_cast q.den_nz
  have key := div_mul_cancel₀ ((q.num : ℚ)) hq
  rw [Rat.num_div_den] at key
  have h1 : (q * 100 + 1 / 2 : ℚ) =
      ((200 * q.num + (q.den : Int) : Int) : ℚ) / ((2 * q.den : ℕ) : ℚ) := by
    rw [eq_div_iff (by push_cast; positivity)]
    push_cast
    linear_combination (200 : ℚ) * key
  rw [round_eq, round2, Int.fdiv_eq_ediv _ (by omega), h1,
    Rat.floor_intCast_div_natCast]
  push_cast
  ring_nf

/-! ### Round-trip facts about decimal rendering -/

theorem ndigs_eq_digits : ∀ (fuel n : Nat), n ≤ fuel → ndigs fuel n = Nat.digits 10 n
  | 0, n, h => by
    interval_cases n
    simp [ndigs]
  | fuel + 1, n, h => by
    rcases Nat.eq_zero_or_pos n with h0 | h0
    · subst h0
      simp [ndigs]
    · rw [ndigs, if_neg (by omega), Nat.digits_def' (by norm_num) h0,
        ndigs_eq_digits fuel (n / 10) (by
          have := Nat.div_lt_self h0 (by norm_num : 1 < 10)
          omega)]

theorem charVal_digitChar {d : Nat} (h : d < 10) : charVal (digitChar d) = d := by
  interval_cases d <;> decide

theorem isDigitCh_digitChar {d : Nat} (h : d < 10) : isDigitCh (digitChar d) = true := by
  interval_cases d <;> decide

theorem digit_not_ws {c : Char} (h : isDigitCh c = true) : isWsChar c = false := by
  have hc : 48 ≤ c.toNat ∧ c.toNat ≤ 57 := by
    simpa [isDigitCh, Bool.and_eq_true, decide_eq_true_iff] using h
  simp only [isWsChar, Bool.or_eq_false_iff, decide_eq_false_iff_not]
  refine ⟨⟨⟨⟨⟨?_, ?_⟩, ?_⟩, ?_⟩, ?_⟩, ?_⟩ <;>
    (intro hcc; subst hcc; revert hc; decide)

theorem digit_ne_char {c x : Char} (h : isDigitCh c = true) (hx : x.toNat < 48 ∨ 57 < x.toNat) :
    c ≠ x := by
  have hc : 48 ≤ c.toNat ∧ c.toNat ≤ 57 := by
    simpa [isDigitCh, Bool.and_eq_true, decide_eq_true_iff] using h
  intro hcc
  subst hcc
  omega

theorem renderNat_all_digit (n : Nat) : ∀ c ∈ renderNat n, isDigitCh c = true := by
  intro c hc
  rw [renderNat] at hc
  split at hc
  · simp at hc
    subst hc
    decide
  · rw [List.mem_reverse, List.mem_map] at hc
    obtain ⟨d, hd, rfl⟩ := hc
    rw [ndigs_eq_digits n n le_rfl] at hd
    exact isDigitCh_digitChar (Nat.digits_lt_base (by norm_num) hd)

theorem renderNat_ne_nil (n : Nat) : renderNat n ≠ [] := by
  rw [renderNat]
  split
  · simp
  · simp only [ne_eq, List.reverse_eq_nil_iff, List.map_eq_nil]
    rw [ndigs_eq_digits n n le_rfl]
    exact Nat.digits_ne_nil_iff_ne_zero.mpr (by assumption)

theorem foldl_digits (l : List Nat) :
    ∀ acc : Nat, l.foldl (fun a d => 10 * a + d) acc =
      acc * 10 ^ l.length + Nat.ofDigits 10 l.reverse := by
  induction l with
  | nil => intro acc; simp [Nat.ofDigits]
  | cons d l ih =>
    intro acc
    rw [List.foldl_cons, ih, List.reverse_cons, Nat.ofDigits_append]
    simp only [List.length_cons, List.length_reverse, Nat.ofDigits_singleton]
    ring

theorem parseNat_renderNat (n : Nat) : parseNat? (renderNat n) = some n := by
  rcases Nat.eq_zero_or_pos n with h0 | h0
  · subst h0
    decide
  · rw [parseNat?, if_pos ⟨renderNat_ne_nil n, List.all_eq_true.mpr (renderNat_all_digit n)⟩]
    congr 1
    have hmap : (renderNat n).map charVal = (Nat.digits 10 n).reverse := by
      rw [renderNat, if_neg (by omega), ← List.map_reverse, List.map_map,
        ndigs_eq_digits n n le_rfl]
      exact (List.map_congr_left fun d hd =>
        charVal_digitChar (Nat.digits_lt_base (by norm_num)
          (List.mem_reverse.mp hd))).trans (List.map_id _)
    rw [← List.foldl_map charVal (fun a d => 10 * a + d), hmap, foldl_digits,
      List.reverse_reverse, Nat.ofDigits_digits]
    simp

theorem renderNat_len_le {n k : Nat} (hk : 1 ≤ k) (h : n < 10 ^ k) :
    (renderNat n).length ≤ k := by
  rcases Nat.eq_zero_or_pos n with h0 | h0
  · subst h0; simpa [renderNat] using hk
  · rw [renderNat, if_neg (by omega), List.length_reverse, List.length_map,
      ndigs_eq_digits n n le_rfl, Nat.digits_len 10 n (by norm_num) (by omega)]
    have := Nat.log_lt_of_lt_pow (by omega : n ≠ 0) h
    omega

theorem renderNat_len_ge {n k : Nat} (h : 10 ^ k ≤ n) : k + 1 ≤ (renderNat n).length := by
  have h0 : 0 < n := lt_of_lt_of_le (Nat.pos_pow_of_pos k (by norm_num) ) h
  rw [renderNat, if_neg (by omega), List.length_reverse, List.length_map,
    ndigs_eq_digits n n le_rfl, Nat.digits_len 10 n (by norm_num) (by omega)]
  have hlog : k ≤ Nat.log 10 n :=
    (Nat.pow_le_iff_le_log (by norm_num) (by omega)).mp h
  omega

theorem parseNat_cons_zero {l : List Char} (h : l ≠ []) (hall : l.all isDigitCh = true) :
    parseNat? ('0' :: l) = parseNat? l := by
  have hall2 : ('0' :: l).all isDigitCh = true := by
    rw [List.all_cons, hall]
    decide
  have hc1 : ('0' :: l) ≠ [] ∧ ('0' :: l).all isDigitCh = true := ⟨List.cons_ne_nil _ _, hall2⟩
  have hc2 : l ≠ [] ∧ l.all isDigitCh = true := ⟨h, hall⟩
  simp only [parseNat?]
  rw [if_pos hc1, if_pos hc2, List.foldl_cons,
    show (10 * 0 + charVal '0') = 0 from by decide]

theorem pad2_parse {r : Nat} (h : r < 100) : parseNat? (pad2 r) = some r := by
  rw [pad2]
  split
  · rw [parseNat_cons_zero (renderNat_ne_nil r)
      (List.all_eq_true.mpr (renderNat_all_digit r))]
    exact parseNat_renderNat r
  · exact parseNat_renderNat r

theorem pad2_len {r : Nat} (h : r < 100) : (pad2 r).length = 2 := by
  rw [pad2]
  split
  · have h1 : (renderNat r).length ≤ 1 := renderNat_len_le le_rfl (by omega)
    have h2 := renderNat_ne_nil r
    have : 1 ≤ (renderNat r).length := by
      cases hr : renderNat r
      · exact absurd hr h2
      · simp
    simp only [List.length_cons]
    omega
  · have h1 : (renderNat r).length ≤ 2 := renderNat_len_le (by norm_num) (by omega)
    have h2 : 1 + 1 ≤ (renderNat r).length := renderNat_len_ge (by omega)
    omega

theorem parseInt_renderInt (z : Int) : parseInt? (renderInt z) = some z := by
  rcases lt_or_le z 0 with hz | hz
  · rw [renderInt, if_pos hz]
    show parseInt? ('-' :: renderNat z.natAbs) = some z
    rw [parseInt?]
    rw [if_pos rfl, parseNat_renderNat]
    have : ((z.natAbs : Int)) = -z := by omega
    simp [this]
  · rw [renderInt, if_neg (by omega), List.nil_append]
    cases hr : renderNat z.natAbs with
    | nil => exact absurd hr (renderNat_ne_nil _)
    | cons c cs =>
      have hdig : isDigitCh c = true := by
        apply renderNat_all_digit z.natAbs
        rw [hr]
        exact List.mem_cons_self _ _
      rw [parseInt?]
      rw [if_neg (digit_ne_char hdig (by decide)), if_neg (digit_ne_char hdig (by decide)),
        ← hr, parseNat_renderNat]
      have : ((z.natAbs : Int)) = z := by omega
      simp [this]

theorem breakAt_not_mem {c : Char} : ∀ {l : List Char}, c ∉ l → breakAt c l = (l, none) := by
  intro l
  induction l with
  | nil => intro _; rfl
  | cons x xs ih =>
    intro h
    have hx : ¬ (x = c) := fun hxc => h (by rw [hxc]; exact List.mem_cons_self _ _)
    rw [breakAt, if_neg hx, ih (fun hm => h (List.mem_cons_of_mem x hm))]

theorem breakAt_first {c : Char} : ∀ {a : List Char} (b : List Char), c ∉ a →
    breakAt c (a ++ c :: b) = (a, some b) := by
  intro a
  induction a with
  | nil => intro b _; simp [breakAt]
  | cons x xs ih =>
    intro b h
    have hx : ¬ (x = c) := fun hxc => h (by rw [hxc]; exact List.mem_cons_self _ _)
    rw [List.cons_append, breakAt, if_neg hx,
      ih b (fun hm => h (List.mem_cons_of_mem x hm))]

theorem dropWhile_false {p : Char → Bool} :
    ∀ {l : List Char}, (∀ c ∈ l, p c = false) → l.dropWhile p = l := by
  intro l
  cases l with
  | nil => intro _; rfl
  | cons x xs =>
    intro h
    rw [List.dropWhile_cons, if_neg (by rw [h x (List.mem_cons_self x xs)]; simp)]

theorem pyStrip_of_nonws {l : List Char} (h : ∀ c ∈ l, isWsChar c = false) :
    pyStrip l = l := by
  rw [pyStrip, dropWhile_false h,
    dropWhile_false (fun c hc => h c (List.mem_reverse.mp hc)), List.reverse_reverse]

theorem pad2_all_digit (r : Nat) : ∀ c ∈ pad2 r, isDigitCh c = true := by
  intro c hc
  rw [pad2] at hc
  split at hc
  · rcases List.mem_cons.mp hc with h0 | h0
    · subst h0; decide
    · exact renderNat_all_digit r c h0
  · exact renderNat_all_digit r c hc

theorem pad2_ne_nil (r : Nat) : pad2 r ≠ [] := by
  rw [pad2]
  split
  · simp
  · exact renderNat_ne_nil r

theorem renderF2_all_nonws (z : Int) : ∀ c ∈ renderF2 z, isWsChar c = false := by
  intro c hc
  rw [renderF2] at hc
  simp only [List.mem_append, List.mem_cons] at hc
  rcases hc with (hc | hc) | (hc | hc)
  · split at hc
    · simp only [List.mem_singleton] at hc
      subst hc
      decide
    · simp at hc
  · exact digit_not_ws (renderNat_all_digit _ c hc)
  · subst hc; decide
  · exact digit_not_ws (pad2_all_digit _ c hc)

theorem renderF2_ne_nil (z : Int) : renderF2 z ≠ [] := by
  rw [renderF2]
  intro h
  rcases List.append_eq_nil.mp h with ⟨_, h2⟩
  exact absurd h2 (List.cons_ne_nil _ _)

theorem renderNat_no_dot (n : Nat) : '.' ∉ renderNat n := by
  intro h
  exact absurd rfl (digit_ne_char (renderNat_all_digit n '.' h) (by decide)).symm

theorem mkRat_neg_num (z : Int) (n : Nat) : mkRat (-z) n = -(mkRat z n) := by
  rw [Rat.mkRat_eq_div, Rat.mkRat_eq_div]
  push_cast
  ring

theorem parseUQ_split {a b : List Char} (ha : a ≠ []) (hdot : '.' ∉ a) (hb : b ≠ []) :
    parseUQ? (a ++ '.' :: b) =
      match parseNat? a, parseNat? b with
      | some n, some f => some (mkRat ((n : Int) * 10 ^ b.length + f) (10 ^ b.length))
      | _, _ => none := by
  rw [parseUQ?, breakAt_first b hdot]
  simp only [List.isEmpty_iff]
  rw [if_neg ha, if_neg hb]

theorem parseQ_renderF2 (z : Int) : parseQ? (renderF2 z) = some (ofHundredths z) := by
  have hcore : parseUQ? (renderNat (z.natAbs / 100) ++ '.' :: pad2 (z.natAbs % 100)) =
      some (mkRat (z.natAbs : Int) 100) := by
    rw [parseUQ_split (renderNat_ne_nil _) (renderNat_no_dot _) (pad2_ne_nil _),
      parseNat_renderNat, pad2_parse (Nat.mod_lt _ (by norm_num)),
      pad2_len (Nat.mod_lt _ (by norm_num))]
    norm_num
    congr 1
    omega
  rw [parseQ?, pyStrip_of_nonws (renderF2_all_nonws z)]
  rcases lt_or_le z 0 with hz | hz
  · have hshape : renderF2 z =
        '-' :: (renderNat (z.natAbs / 100) ++ '.' :: pad2 (z.natAbs % 100)) := by
      rw [renderF2, if_pos hz]
      rfl
    rw [hshape]
    show Option.map _ (parseUQ? _) = _
    rw [hcore]
    have hz2 : (-(z.natAbs : Int)) = z := by omega
    show some (-(mkRat ((z.natAbs : Int)) 100)) = some (ofHundredths z)
    rw [← mkRat_neg_num, hz2, ofHundredths]
  · have hshape : renderF2 z =
        renderNat (z.natAbs / 100) ++ '.' :: pad2 (z.natAbs % 100) := by
      rw [renderF2, if_neg (by omega), List.nil_append]
    cases hr : renderNat (z.natAbs / 100) with
    | nil => exact absurd hr (renderNat_ne_nil _)
    | cons c cs =>
      have hdig : isDigitCh c = true := by
        apply renderNat_all_digit (z.natAbs / 100)
        rw [hr]
        exact List.mem_cons_self _ _
      rw [hshape, hr, List.cons_append]
      show parseSigned? (c :: (cs ++ '.' :: pad2 (z.natAbs % 100))) = _
      rw [parseSigned?]
      rw [if_neg (digit_ne_char hdig (by decide)), if_neg (digit_ne_char hdig (by decide)),
        ← List.cons_append, ← hr, hcore]
      have hz2 : ((z.natAbs : Int)) = z := by omega
      rw [hz2, ofHundredths]

/-! ### Tokenisation of space-padded fixed-width lines -/

theorem splitWsGo_nonws {w : List Char} (hw : ∀ c ∈ w, isWsChar c = false) :
    ∀ (r acc : List Char), splitWsGo (w ++ r) acc = splitWsGo r (w.reverse ++ acc) := by
  induction w with
  | nil => intro r acc; simp
  | cons c cs ih =>
    intro r acc
    rw [List.cons_append, splitWsGo, if_neg (by rw [hw c (List.mem_cons_self _ _)]; simp),
      ih (fun x hx => hw x (List.mem_cons_of_mem c hx)) r (c :: acc)]
    simp

theorem splitWsGo_allws {t : List Char} (ht : ∀ c ∈ t, isWsChar c = true) :
    ∀ acc, splitWsGo t acc = if acc.isEmpty then [] else [acc.reverse] := by
  induction t with
  | nil => intro acc; rfl
  | cons c cs ih =>
    intro acc
    rw [splitWsGo, if_pos (ht c (List.mem_cons_self _ _))]
    by_cases hacc : acc.isEmpty
    · rw [if_pos hacc, ih (fun x hx => ht x (List.mem_cons_of_mem c hx)) []]
      simp [hacc]
    · rw [if_neg hacc, ih (fun x hx => ht x (List.mem_cons_of_mem c hx)) []]
      simp [hacc]

theorem splitWsGo_ws_prefix (k : Nat) (r : List Char) :
    splitWsGo (List.replicate k ' ' ++ r) [] = splitWsGo r [] := by
  induction k with
  | zero => rfl
  | succ k ih =>
    rw [List.replicate_succ, List.cons_append, splitWsGo, if_pos (by decide)]
    simpa using ih

theorem splitWsGo_flush {acc : List Char} (hacc : ¬ acc.isEmpty) (rest : List Char)
    (hrest : rest = [] ∨ ∃ c rs, rest = c :: rs ∧ isWsChar c = true) :
    splitWsGo rest acc = acc.reverse :: splitWsGo rest [] := by
  rcases hrest with rfl | ⟨c, rs, rfl, hc⟩
  · rw [splitWsGo, if_neg hacc]
    rfl
  · rw [splitWsGo, if_pos hc, if_neg hacc, splitWsGo, if_pos hc, if_pos (by simp)]

/-- A space-padded fixed-width line: blocks of at least one space of
padding followed by a nonempty whitespace-free core, ending in trailing
whitespace (the newline). -/
def wsBlocks (bs : List (Nat × List Char)) (t : List Char) : List Char :=
  bs.foldr (fun b acc => List.replicate (b.1 + 1) ' ' ++ b.2 ++ acc) t

theorem wsBlocks_head (bs : List (Nat × List Char)) {t : List Char}
    (ht : ∀ c ∈ t, isWsChar c = true) :
    wsBlocks bs t = [] ∨ ∃ c rs, wsBlocks bs t = c :: rs ∧ isWsChar c = true := by
  cases bs with
  | nil =>
    cases ht' : t with
    | nil => exact Or.inl rfl
    | cons c cs =>
      refine Or.inr ⟨c, cs, rfl, ?_⟩
      exact ht c (by rw [ht']; exact List.mem_cons_self _ _)
  | cons b bs =>
    right
    refine ⟨' ', List.replicate b.1 ' ' ++ b.2 ++ wsBlocks bs t, ?_, by decide⟩
    show List.replicate (b.1 + 1) ' ' ++ b.2 ++ wsBlocks bs t = _
    rw [List.replicate_succ, List.cons_append, List.cons_append]

theorem splitWs_wsBlocks : ∀ (bs : List (Nat × List Char)) {t : List Char},
    (∀ b ∈ bs, b.2 ≠ [] ∧ ∀ c ∈ b.2, isWsChar c = false) →
    (∀ c ∈ t, isWsChar c = true) →
    splitWs (wsBlocks bs t) = bs.map (·.2) := by
  intro bs
  induction bs with
  | nil =>
    intro t _ ht
    rw [splitWs, wsBlocks, List.foldr_nil, splitWsGo_allws ht]
    simp
  | cons b bs ih =>
    intro t hb ht
    obtain ⟨hbne, hbws⟩ := hb b (List.mem_cons_self _ _)
    rw [splitWs, wsBlocks, List.foldr_cons]
    show splitWsGo (List.replicate (b.1 + 1) ' ' ++ b.2 ++ wsBlocks bs t) [] = _
    rw [List.append_assoc, splitWsGo_ws_prefix, splitWsGo_nonws hbws, List.append_nil,
      splitWsGo_flush (by simpa using hbne) _ (wsBlocks_head bs ht), List.reverse_reverse]
    rw [show splitWsGo (wsBlocks bs t) [] = splitWs (wsBlocks bs t) from rfl,
      ih (fun x hx => hb x (List.mem_cons_of_mem b hx)) ht]
    rfl

/-! ### Sorting by timestamp key (the model of `sort_index`) -/

def insSorted {α : Type} (x : Nat × α) : List (Nat × α) → List (Nat × α)
  | [] => [x]
  | y :: ys => if x.1 ≤ y.1 then x :: y :: ys else y :: insSorted x ys

def sortByKey {α : Type} (l : List (Nat × α)) : List (Nat × α) := l.foldr insSorted []

theorem insSorted_perm {α : Type} (x : Nat × α) :
    ∀ l : List (Nat × α), List.Perm (insSorted x l) (x :: l) := by
  intro l
  induction l with
  | nil => rfl
  | cons y ys ih =>
    rw [insSorted]
    split
    · rfl
    · exact (List.Perm.cons y ih).trans (List.Perm.swap x y ys)

theorem sortByKey_perm {α : Type} (l : List (Nat × α)) : List.Perm (sortByKey l) l := by
  induction l with
  | nil => rfl
  | cons x xs ih =>
    rw [sortByKey, List.foldr_cons]
    exact (insSorted_perm x _).trans (List.Perm.cons x ih)

theorem insSorted_sorted {α : Type} (x : Nat × α) {l : List (Nat × α)}
    (h : List.Pairwise (fun a b => a.1 ≤ b.1) l) :
    List.Pairwise (fun a b : Nat × α => a.1 ≤ b.1) (insSorted x l) := by
  induction l with
  | nil => simp [insSorted]
  | cons y ys ih =>
    rw [insSorted]
    rcases List.pairwise_cons.mp h with ⟨hy, hys⟩
    split
    · refine List.pairwise_cons.mpr ⟨?_, h⟩
      intro b hb
      rcases List.mem_cons.mp hb with rfl | hb
      · omega
      · have := hy b hb
        omega
    · refine List.pairwise_cons.mpr ⟨?_, ih hys⟩
      intro b hb
      have := (insSorted_perm x ys).mem_iff.mp hb
      rcases List.mem_cons.mp this with rfl | hb2
      · omega
      · exact hy b hb2

theorem sortByKey_sorted {α : Type} (l : List (Nat × α)) :
    List.Pairwise (fun a b : Nat × α => a.1 ≤ b.1) (sortByKey l) := by
  induction l with
  | nil => exact List.Pairwise.nil
  | cons x xs ih => exact insSorted_sorted x ih

/-- A `≤`-sorted permutation of a strictly-sorted list is that list. -/
theorem sorted_perm_unique {α : Type} {l₁ l₂ : List (Nat × α)} (hp : List.Perm l₁ l₂)
    (h₁ : List.Pairwise (fun a b => a.1 ≤ b.1) l₁)
    (h₂ : List.Pairwise (fun a b => a.1 < b.1) l₂) : l₁ = l₂ := by
  haveI : IsAntisymm (Nat × α) (fun a b => a.1 < b.1) :=
    ⟨fun a b h1 h2 => absurd h1 (by omega)⟩
  have hne : List.Pairwise (fun a b : Nat × α => a.1 ≠ b.1) l₁ :=
    ((List.Perm.pairwise_iff (fun {a b} h => h.symm) hp).mpr
      (h₂.imp (fun h => by omega)))
  have h₁' : List.Pairwise (fun a b : Nat × α => a.1 < b.1) l₁ :=
    (h₁.and hne).imp (fun h => by omega)
  exact List.eq_of_perm_of_sorted hp h₁' h₂

/-! ### Calendar model (pandas timestamp assembly and Python datetime) -/

def isLeap (y : Nat) : Bool := y % 4 == 0 && (!(y % 100 == 0) || y % 400 == 0)

def daysInMonth (y m : Nat) : Nat :=
  if m = 2 then (if isLeap y then 29 else 28)
  else if m = 4 ∨ m = 6 ∨ m = 9 ∨ m = 11 then 30 else 31

/-- Calendar validity of a `(year, month, day)` triple for the pandas
`Timestamp` assembly; the year window approximates the representable
`Timestamp` range (1677-09-21 to 2262-04-11) by whole years. -/
def validPd (y m d : Nat) : Bool :=
  decide (1678 ≤ y) && decide (y ≤ 2261) && decide (1 ≤ m) && decide (m ≤ 12) &&
    decide (1 ≤ d) && decide (d ≤ daysInMonth y m)

/-- Calendar validity for Python `datetime.datetime` (years 1..9999). -/
def validPy (y m d : Nat) : Bool :=
  decide (1 ≤ y) && decide (y ≤ 9999) && decide (1 ≤ m) && decide (m ≤ 12) &&
    decide (1 ≤ d) && decide (d ≤ daysInMonth y m)

/-- Order-embedding key of a timestamp (lexicographic in year, month,
day, hour as long as month/day/hour stay below 100). -/
def dkey (y m d h : Nat) : Nat := ((y * 100 + m) * 100 + d) * 100 + h

/-- A timestamp of the 2-hour-spaced tables handed to the writers
(what the writer reads off `df.index[i]`). -/
structure DT where
  year : Nat
  month : Nat
  day : Nat
  hour : Nat
deriving DecidableEq

def DT.key (t : DT) : Nat := dkey t.year t.month t.day t.hour

def nextDay (t : DT) : DT :=
  if t.day < daysInMonth t.year t.month then ⟨t.year, t.month, t.day + 1, t.hour⟩
  else if t.month < 12 then ⟨t.year, t.month + 1, 1, t.hour⟩
  else ⟨t.year + 1, 1, 1, t.hour⟩

def addDays (t : DT) : Nat → DT
  | 0 => t
  | n + 1 => nextDay (addDays t n)

/-- A float cell holds an integral nonnegative value usable as a date
component (`pd.to_datetime` rejects fractional and negative parts). -/
def cellNat? (q : ℚ) : Option Nat :=
  if q.den = 1 ∧ 0 ≤ q.num then some q.num.toNat else none

/-- `pd.to_datetime(df[['year','month','day']])` on one melted row whose
day-of-month comes from the melt column label. -/
def toDatetimeYMd? (y m : ℚ) (day : Nat) : Option Nat := do
  let yn ← cellNat? y
  let mn ← cellNat? m
  if validPd yn mn day then some (dkey yn mn day 0) else none

/-- `pd.to_datetime(df[['year','month','day','hour']])` on one melted
row whose hour comes from the melt column label. -/
def toDatetimeYMDH? (y m d : ℚ) (hour : Nat) : Option Nat := do
  let yn ← cellNat? y
  let mn ← cellNat? m
  let dn ← cellNat? d
  if validPd yn mn dn && decide (hour < 24) then some (dkey yn mn dn hour) else none

/-! ### Shared reader plumbing

A file is a `List String`, each entry one physical line including its
trailing newline, exactly as Python file iteration produces them. -/

instance exceptDecEq {ε α : Type} [DecidableEq ε] [DecidableEq α] :
    DecidableEq (Except ε α) := fun a b =>
  match a, b with
  | .ok x, .ok y =>
    if h : x = y then isTrue (by rw [h]) else isFalse (fun hc => h (Except.ok.inj hc))
  | .error x, .error y =>
    if h : x = y then isTrue (by rw [h]) else isFalse (fun hc => h (Except.error.inj hc))
  | .ok _, .error _ => isFalse (fun hc => Except.noConfusion hc)
  | .error _, .ok _ => isFalse (fun hc => Except.noConfusion hc)

/-- Fallible map over `Except Unit` (the monadic `mapM` of the model,
defined structurally). -/
def mapE {α β : Type} (f : α → Except Unit β) : List α → Except Unit (List β)
  | [] => .ok []
  | x :: xs =>
    match f x with
    | .error e => .error e
    | .ok y => (mapE f xs).map (fun ys => y :: ys)

/-- Fallible map over `Option`. -/
def mapO {α β : Type} (f : α → Option β) : List α → Option (List β)
  | [] => some []
  | x :: xs =>
    match f x with
    | none => none
    | some y => (mapO f xs).map (fun ys => y :: ys)

/-- Fold with a fallible step: the readers abort at the first Python
exception. -/
def foldE {σ α : Type} (f : σ → α → Except Unit σ) : σ → List α → Except Unit σ
  | s, [] => .ok s
  | s, x :: xs =>
    match f s x with
    | .ok s' => foldE f s' xs
    | .error e => .error e

/-- State of the `mergedLine`/`StringIO` pair threaded through the
line-merging loops. -/
structure MergeState where
  merged : Option (List Char)
  out : List Char
deriving DecidableEq

/-- One iteration of the `read.inflow` loop (src/read.py lines 33-46):
skip blank and `#` lines, treat a 3-comma-field line as a record header,
and treat other lines as continuation lines that are terminal exactly
when the character at offset 12 is `'3'` (missing offset 12 is an
`IndexError`). -/
def inflowStep (st : MergeState) (lnS : String) : Except Unit MergeState :=
  let ln := lnS.data
  if (pyStrip ln).isEmpty then .ok st
  else if ln.head? = some '#' then .ok st
  else if (splitOnChar ',' ln).length = 3 then
    let hdr := replaceFirst '\n' ',' (joinChar ',' ((splitOnChar ',' ln).take 2)) ++ [',']
    .ok { st with merged := some hdr }
  else
    match ln.get? 12 with
    | none => .error ()
    | some c =>
      if c ≠ '3' then
        match st.merged with
        | none => .error ()
        | some m =>
          let m2 := m ++ joinChar ',' ((splitWs (replaceFirst '\n' ',' ln)).drop 3)
          .ok { st with merged := some m2 }
      else
        match st.merged with
        | none => .error ()
        | some m =>
          let m' := m ++ joinChar ',' ((splitWs ln).drop 3) ++ ['\n']
          .ok { merged := some m', out := st.out ++ m' }

/-- One iteration of the `read.precip` loop (src/read.py lines 88-101);
the source duplicates the `inflow` loop body verbatim. -/
def precipStep (st : MergeState) (lnS : String) : Except Unit MergeState :=
  let ln := lnS.data
  if (pyStrip ln).isEmpty then .ok st
  else if ln.head? = some '#' then .ok st
  else if (splitOnChar ',' ln).length = 3 then
    let hdr := replaceFirst '\n' ',' (joinChar ',' ((splitOnChar ',' ln).take 2)) ++ [',']
    .ok { st with merged := some hdr }
  else
    match ln.get? 12 with
    | none => .error ()
    | some c =>
      if c ≠ '3' then
        match st.merged with
        | none => .error ()
        | some m =>
          let m2 := m ++ joinChar ',' ((splitWs (replaceFirst '\n' ',' ln)).drop 3)
          .ok { st with merged := some m2 }
      else
        match st.merged with
        | none => .error ()
        | some m =>
          let m' := m ++ joinChar ',' ((splitWs ln).drop 3) ++ ['\n']
          .ok { merged := some m', out := st.out ++ m' }

/-- One iteration of the packaged `inflow` loop
(src/build/lib/tbtools/read.py lines 34-50): continuation payload is the
bytes from offset 13 chunked into 6-character fields with the final
chunk discarded. -/
def inflowBStep (st : MergeState) (lnS : String) : Except Unit MergeState :=
  let ln := lnS.data
  if (pyStrip ln).isEmpty then .ok st
  else if ln.head? = some '#' then .ok st
  else if (splitOnChar ',' ln).length = 3 then
    let hdr := replaceFirst '\n' ',' (joinChar ',' ((splitOnChar ',' ln).take 2)) ++ [',']
    .ok { st with merged := some hdr }
  else
    match ln.get? 12 with
    | none => .error ()
    | some c =>
      if c ≠ '3' then
        match st.merged with
        | none => .error ()
        | some m =>
          let m2 := m ++ joinChar ',' ((chunksP 5 (ln.drop 13)).dropLast) ++ [',']
          .ok { st with merged := some m2 }
      else
        match st.merged with
        | none => .error ()
        | some m =>
          let m' := m ++ joinChar ',' ((chunksP 5 (ln.drop 13)).dropLast) ++ ['\n']
          .ok { merged := some m', out := st.out ++ m' }

/-- Run a merge loop over a whole file and return the accumulated
`StringIO` contents. -/
def mergeRun (step : MergeState → String → Except Unit MergeState)
    (lines : List String) : Except Unit (List Char) :=
  (foldE step ⟨none, []⟩ lines).map (fun st => st.out)

/-- The CSV rows seen by `pd.read_csv` on a `StringIO` (blank lines are
skipped). -/
def csvLines (out : List Char) : List (List Char) :=
  (splitOnChar '\n' out).filter (fun l => ¬ l.isEmpty)

def csvFields (l : List Char) : List (List Char) := splitOnChar ',' l

/-- Conversion of one CSV field: a field matching an `na_values` token or
empty (after stripping) is NaN; a numeric field parses; any other field
would make the column non-numeric, which the downstream date assembly
rejects — modelled as an error. -/
def cellQ? (na : List (List Char)) (tok : List Char) : Except Unit (Option ℚ) :=
  if tok ∈ na then .ok none
  else if (pyStrip tok).isEmpty then .ok none
  else
    match parseQ? tok with
    | some q => .ok (some q)
    | none => .error ()

/-- A parsed record of the 33-column `['year', 'month'] + days` layout
used by `inflow`/`precip`; missing trailing fields read as NaN, extra
fields are rejected. -/
structure RecYM where
  year : Option ℚ
  month : Option ℚ
  days : List (Option ℚ)
deriving DecidableEq

def recYM? (na : List (List Char)) (fields : List (List Char)) : Except Unit RecYM := do
  if fields.length > 33 then .error ()
  else
    let cells ← mapE (cellQ? na) (fields ++ List.replicate (33 - fields.length) [])
    match cells with
    | y :: m :: ds => .ok ⟨y, m, ds⟩
    | _ => .error ()

/-- `pd.melt` over the 31 day columns followed by `dropna` (a row
survives exactly when year, month and the slot value are all non-NaN). -/
def meltYM (recs : List RecYM) : List (ℚ × ℚ × Nat × ℚ) :=
  (List.range 31).flatMap (fun j =>
    recs.filterMap (fun r =>
      match r.year, r.month, r.days.getD j none with
      | some y, some m, some v => some (y, m, j + 1, v)
      | _, _, _ => none))

/-- `pd.to_datetime(...[['year','month','day']])` over the melted rows:
any invalid composite raises. -/
def datesYM? (rows : List (ℚ × ℚ × Nat × ℚ)) : Except Unit (List (Nat × ℚ)) :=
  mapE (fun r =>
    match toDatetimeYMd? r.1 r.2.1 r.2.2.1 with
    | some k => .ok (k, r.2.2.2)
    | none => .error ()) rows

/-- A single-column time-series table (the pandas DataFrame results). -/
structure QTable where
  colName : String
  rows : List (Nat × ℚ)
deriving DecidableEq

namespace read

/-- `read.inflow` (src/read.py lines 10-62). -/
def inflow (lines : List String) : Except Unit QTable := do
  let out ← mergeRun inflowStep lines
  let recs ← mapE (fun l => recYM? [] (csvFields l)) (csvLines out)
  let rows ← datesYM? (meltYM recs)
  .ok ⟨"inflow_cfs", sortByKey rows⟩

/-- `read.precip` (src/read.py lines 65-116). -/
def precip (lines : List String) : Except Unit QTable := do
  let out ← mergeRun precipStep lines
  let recs ← mapE (fun l => recYM? [] (csvFields l)) (csvLines out)
  let rows ← datesYM? (meltYM recs)
  .ok ⟨"precip_inches", sortByKey rows⟩

end read

namespace readB

/-- Packaged `read.inflow` (src/build/lib/tbtools/read.py lines 12-67),
whose continuation payload uses fixed 6-character chunking. -/
def inflow (lines : List String) : Except Unit QTable := do
  let out ← mergeRun inflowBStep lines
  let recs ← mapE (fun l => recYM? [] (csvFields l)) (csvLines out)
  let rows ← datesYM? (meltYM recs)
  .ok ⟨"inflow_cfs", sortByKey rows⟩

end readB

/-! ### The pcp reader -/

/-- State of the `read.pcp` loop: the last watershed id bound by a
leading-`'1'` line (a Python local that leaks out of the loop), the
merged line and the `StringIO`. -/
structure PcpState where
  ws : Option (List Char)
  merged : Option (List Char)
  out : List Char
deriving DecidableEq

/-- One iteration of the `read.pcp` loop (src/read.py lines 220-237).
Lines led by `'1'` start a record, `'2'`/`'3'` continue it, `'4'` ends
it dropping the last two chunks; any other unmatched line falls through
to `s.write(mergedLine)`. -/
def pcpStep (st : PcpState) (lnS : String) : Except Unit PcpState :=
  let ln := lnS.data
  if (pyStrip ln).isEmpty then .ok st
  else if ln.head? = some '#' then .ok st
  else if ln.head? = some '1' then
    let m1 := (ln.drop 4).take 5 ++ [','] ++ (ln.drop 9).take 4 ++ [','] ++
      (ln.drop 13).take 2 ++ [','] ++
      removeFirst '\n' (joinChar ',' (chunksP 7 (ln.drop 17)))
    .ok { st with ws := some ((ln.drop 4).take 5), merged := some m1 }
  else if ln.head? = some '2' ∨ ln.head? = some '3' then
    match st.merged with
    | none => .error ()
    | some m =>
      let m2 := m ++ removeFirst '\n' (joinChar ',' (chunksP 7 (ln.drop 1)))
      .ok { st with merged := some m2 }
  else if ln.head? = some '4' then
    match st.merged with
    | none => .error ()
    | some m =>
      let m' := m ++ joinChar ',' ((chunksP 7 (ln.drop 1)).dropLast.dropLast) ++ ['\n']
      .ok { st with merged := some m', out := st.out ++ m' }
  else
    match st.merged with
    | none => .error ()
    | some m => .ok { st with out := st.out ++ m }

/-- A parsed record of the 34-column `['ws', 'year', 'month'] + days`
layout of `pcp`. -/
structure RecWsYM where
  ws : Option (List Char)
  year : Option ℚ
  month : Option ℚ
  days : List (Option ℚ)
deriving DecidableEq

def recWsYM? (fields : List (List Char)) : Except Unit RecWsYM := do
  if fields.length > 34 then .error ()
  else
    match fields ++ List.replicate (34 - fields.length) [] with
    | w :: rest =>
      let cells ← mapE (cellQ? [('-' :: "9999.00".data)]) rest
      match cells with
      | y :: m :: ds => .ok ⟨if w.isEmpty then none else some w, y, m, ds⟩
      | _ => .error ()
    | _ => .error ()

/-- `pd.melt` over the day columns with id columns `ws, year, month`,
then `dropna`. -/
def meltWsYM (recs : List RecWsYM) : List (ℚ × ℚ × Nat × ℚ) :=
  (List.range 31).flatMap (fun j =>
    recs.filterMap (fun r =>
      match r.ws, r.year, r.month, r.days.getD j none with
      | some _, some y, some m, some v => some (y, m, j + 1, v)
      | _, _, _, _ => none))

namespace read

/-- `read.pcp` (src/read.py lines 193-252). -/
def pcp (lines : List String) : Except Unit QTable := do
  let st ← foldE pcpStep ⟨none, none, []⟩ lines
  match st.ws with
  | none => .error ()
  | some w => do
    let recs ← mapE (fun l => recWsYM? (csvFields l)) (csvLines st.out)
    let rows ← datesYM? (meltWsYM recs)
    .ok ⟨String.mk (pyStrip (w ++ "_pcp".data)), sortByKey rows⟩

end read

/-! ### The gensal / tide readers (whitespace-separated 16-column layout) -/

/-- Tokens of one line as seen by `pd.read_csv(..., sep='\s+')`. -/
def rowTokens (lnS : String) : List (List Char) := splitWs lnS.data

/-- One parsed record of the
`['month', 'day'] + twelve 2-hour slots + ['year', 'label']` layout; the
label column is dropped by the melt and never converted. -/
structure RecGensal where
  month : Option ℚ
  day : Option ℚ
  hours : List (Option ℚ)
  year : Option ℚ
deriving DecidableEq

def recGensal? (toks : List (List Char)) : Except Unit RecGensal := do
  if toks.length > 16 then .error ()
  else
    let p := toks ++ List.replicate (16 - toks.length) []
    let m ← cellQ? [] (p.getD 0 [])
    let d ← cellQ? [] (p.getD 1 [])
    let hs ← mapE (cellQ? []) ((p.drop 2).take 12)
    let y ← cellQ? [] (p.getD 14 [])
    .ok ⟨m, d, hs, y⟩

/-- `pd.melt` over the twelve 2-hour columns (labels 00, 02, ..., 22)
followed by the strict `pd.to_datetime` (no `dropna` in this reader: a
NaN year/month/day raises; a NaN slot value survives as a NaN row). -/
def meltGensal (recs : List RecGensal) : Except Unit (List (Nat × Option ℚ)) :=
  mapE (fun row =>
      match row.1, row.2.1, row.2.2.1 with
      | some y, some m, some d =>
        match toDatetimeYMDH? y m d row.2.2.2.1 with
        | some key => .ok (key, row.2.2.2.2)
        | none => .error ()
      | _, _, _ => .error ())
    ((List.range 12).flatMap (fun k =>
      recs.map (fun r => (r.year, r.month, r.day, 2 * k, r.hours.getD k none))))

/-- A single-column table whose values may be NaN. -/
structure OTable where
  colName : String
  rows : List (Nat × Option ℚ)
deriving DecidableEq

namespace read

/-- `read.gensal` (src/read.py lines 158-190). -/
def gensal (lines : List String) : Except Unit OTable := do
  let recs ← mapE recGensal? ((lines.map rowTokens).filter (fun t => ¬ t.isEmpty))
  let rows ← meltGensal recs
  .ok ⟨"salinity", sortByKey rows⟩

/-- Packaged `read.tide` (src/build/lib/tbtools/read.py lines 197-230):
the same 16-column pipeline as `gensal`, including the `'salinity'`
column label. -/
def tide (lines : List String) : Except Unit OTable := do
  let recs ← mapE recGensal? ((lines.map rowTokens).filter (fun t => ¬ t.isEmpty))
  let rows ← meltGensal recs
  .ok ⟨"salinity", sortByKey rows⟩

end read

/-! ### The wind reader -/

/-- One parsed record of the 29-column
`['year','month','day','site','var'] + 24 hourly slots` layout, read
with `na_values='-9'`. -/
structure RecWind where
  year : Option ℚ
  month : Option ℚ
  day : Option ℚ
  site : List Char
  var : Option ℚ
  hours : List (Option ℚ)
deriving DecidableEq

def na9 : List (List Char) := [['-', '9']]

def recWind? (toks : List (List Char)) : Except Unit RecWind := do
  if toks.length > 29 then .error ()
  else
    let p := toks ++ List.replicate (29 - toks.length) []
    let y ← cellQ? na9 (p.getD 0 [])
    let m ← cellQ? na9 (p.getD 1 [])
    let d ← cellQ? na9 (p.getD 2 [])
    let v ← cellQ? na9 (p.getD 4 [])
    let hs ← mapE (cellQ? na9) ((p.drop 5).take 24)
    .ok ⟨y, m, d, p.getD 3 [], v, hs⟩

/-- The date of one melted wind row under
`pd.to_datetime(..., errors='coerce')`: NaN components or an impossible
composite give NaT instead of raising. -/
def windDate? (r : RecWind) (k : Nat) : Option Nat :=
  match r.year, r.month, r.day with
  | some y, some m, some d => toDatetimeYMDH? y m d k
  | _, _, _ => none

/-- The melted `(date, var, value)` triples feeding `pivot_table`. -/
def windPairs (recs : List RecWind) : List (Option Nat × Option ℚ × Option ℚ) :=
  (List.range 24).flatMap (fun k =>
    recs.map (fun r => (windDate? r k, r.var, r.hours.getD k none)))

/-- One `pivot_table` cell: the mean of the non-NaN values of group
`(d, v)`, or NaN when the group has no non-NaN value. -/
def aggCell (pairs : List (Option Nat × Option ℚ × Option ℚ)) (d : Nat) (v : ℚ) :
    Option ℚ :=
  let vals := pairs.filterMap (fun p =>
    match p with
    | (some d', some v', some x) => if d' = d ∧ v' = v then some x else none
    | _ => none)
  if vals.isEmpty then none else some (qmean vals)

/-- Ordered insertion without duplicates (the sorted distinct group
keys of a pandas `groupby`). -/
def insOrdBy {α : Type} [DecidableEq α] (lt : α → α → Bool) (x : α) : List α → List α
  | [] => [x]
  | y :: ys =>
    if lt x y then x :: y :: ys
    else if x = y then y :: ys
    else y :: insOrdBy lt x ys

def sortedDistinctBy {α : Type} [DecidableEq α] (lt : α → α → Bool) (l : List α) :
    List α :=
  l.foldr (insOrdBy lt) []

def qlt (a b : ℚ) : Bool := decide (a < b)

def natlt (a b : Nat) : Bool := decide (a < b)

/-- `pivot_table(index=['date'], columns='var', values='value')` followed
by the positional rename to `['dir', 'spd']` (which raises unless exactly
two var columns survive) and the `dir` scaling by 10. -/
def windPivot (pairs : List (Option Nat × Option ℚ × Option ℚ)) :
    Except Unit (List (Nat × Option ℚ × Option ℚ)) :=
  let cols0 := sortedDistinctBy qlt (pairs.filterMap (fun p =>
    match p.1, p.2.1 with
    | some _, some v => some v
    | _, _ => none))
  let cols := cols0.filter (fun v => pairs.any (fun p =>
    match p with
    | (some d, some v', some _) => (aggCell pairs d v').isSome ∧ v' = v
    | _ => false))
  let dates0 := sortedDistinctBy natlt (pairs.filterMap (fun p =>
    match p.1, p.2.1 with
    | some d, some _ => some d
    | _, _ => none))
  let dates := dates0.filter (fun d => cols.any (fun v => (aggCell pairs d v).isSome))
  match cols with
  | [c0, c1] =>
    .ok (dates.map (fun d => (d, (aggCell pairs d c0).map scale10, aggCell pairs d c1)))
  | _ => .error ()

/-- A wind table: timestamp, `dir` (scaled by 10) and `spd` columns. -/
structure WTable where
  rows : List (Nat × Option ℚ × Option ℚ)
deriving DecidableEq

namespace read

/-- `read.wind` (src/read.py lines 119-155). -/
def wind (lines : List String) : Except Unit WTable := do
  let recs ← mapE recWind? ((lines.map rowTokens).filter (fun t => ¬ t.isEmpty))
  let rows ← windPivot (windPairs recs)
  .ok ⟨rows⟩

end read

/-! ### The vel / avesalD readers -/

def isAlphaCh (c : Char) : Bool :=
  (65 ≤ c.toNat && c.toNat ≤ 90) || (97 ≤ c.toNat && c.toNat ≤ 122)

/-- `re.search('[a-zA-Z]', ln)`. -/
def hasAlpha (l : List Char) : Bool := l.any isAlphaCh

/-- Zero-padded decimal rendering (the fixed-width pieces of
`str(datetime(...))`). -/
def padZ (w n : Nat) : List Char :=
  List.replicate (w - (renderNat n).length) '0' ++ renderNat n

/-- `str(pd.datetime(y, m, d))`, i.e. `YYYY-MM-DD 00:00:00`. -/
def velDateStr (y m d : Nat) : List Char :=
  padZ 4 y ++ '-' :: padZ 2 m ++ '-' :: padZ 2 d ++ " 00:00:00".data

/-- One iteration of the `read.vel` loop (src/read.py lines 279-296).
`init != 0` is equivalent to `mergedLine is not None` in this loop, so
the state keeps only the merged line. -/
def velStep (st : MergeState) (lnS : String) : Except Unit MergeState :=
  let ln := lnS.data
  if (pyStrip ln).isEmpty then .ok st
  else
    let toks := splitWs ln
    if toks.getD 0 [] = "Average".data then
      let out' :=
        match st.merged with
        | some m => st.out ++ (m.dropLast ++ ['\n'])
        | none => st.out
      match toks.get? 4, toks.get? 6, toks.get? 8 with
      | some t4, some t6, some t8 =>
        match parseInt? t4, parseInt? t6, parseInt? t8 with
        | some y, some m, some d =>
          if 0 ≤ y ∧ 0 ≤ m ∧ 0 ≤ d ∧ validPy y.toNat m.toNat d.toNat then
            .ok ⟨some (velDateStr y.toNat m.toNat d.toNat ++ [',']), out'⟩
          else .error ()
        | _, _, _ => .error ()
      | _, _, _ => .error ()
    else if hasAlpha ln then .ok st
    else
      match st.merged with
      | none => .error ()
      | some m => .ok { st with merged := some (m ++ joinChar ',' toks ++ [',']) }

/-- The flush after the loop: `mergedLine[:-1] + '\n'` is written once
more (a `TypeError` when no record was ever started). -/
def velFinish (st : MergeState) : Except Unit (List Char) :=
  match st.merged with
  | none => .error ()
  | some m => .ok (st.out ++ (m.dropLast ++ ['\n']))

/-- Parse of a `YYYY-MM-DD H:MM:SS` index entry by
`read_csv(..., parse_dates=True)`; an unparseable entry leaves a plain
string index in pandas, modelled as an error. -/
def parseVelDate? (tok : List Char) : Option Nat :=
  match splitWs tok with
  | [dpart, tpart] =>
    match splitOnChar '-' dpart with
    | [ys, ms, ds] => do
      let y ← parseNat? ys
      let m ← parseNat? ms
      let d ← parseNat? ds
      let h ← parseNat? (breakAt ':' tpart).1
      if validPd y m d ∧ h < 24 then some (dkey y m d h) else none
    | _ => none
  | _ => none

/-- A raw-valued table: timestamp key and untyped CSV fields. -/
structure STable where
  rows : List (Nat × List (List Char))
deriving DecidableEq

/-- `pd.read_csv(s, parse_dates=True, index_col=0, header=None)`: the
first row fixes the width, wider rows raise, shorter rows pad with NaN
(empty fields). -/
def velCsv (out : List Char) : Except Unit STable := do
  match csvLines out with
  | [] => .error ()
  | r0 :: rest =>
    let w := (csvFields r0).length
    let parsed ← mapE (fun r => do
      let fs := csvFields r
      if fs.length > w then .error ()
      else
        match fs with
        | dstr :: vals =>
          match parseVelDate? dstr with
          | some k => .ok (k, vals ++ List.replicate (w - 1 - vals.length) [])
          | none => .error ()
        | [] => .error ()) (r0 :: rest)
    .ok ⟨parsed⟩

namespace read

/-- `read.vel` (src/read.py lines 255-303). -/
def vel (lines : List String) : Except Unit STable := do
  let st ← foldE velStep ⟨none, []⟩ lines
  let out ← velFinish st
  velCsv out

/-- `read.avesalD` (src/read.py lines 306-355); the source duplicates
the `vel` loop body verbatim. -/
def avesalD (lines : List String) : Except Unit STable := do
  let st ← foldE velStep ⟨none, []⟩ lines
  let out ← velFinish st
  velCsv out

end read

/-! ### The outflw1 reader -/

def startsWithL : List Char → List Char → Bool
  | [], _ => true
  | _ :: _, [] => false
  | p :: ps, c :: cs => p = c && startsWithL ps cs

/-- Python's substring test `pat in s`. -/
def containsSub (pat : List Char) : List Char → Bool
  | [] => startsWithL pat []
  | c :: cs => startsWithL pat (c :: cs) || containsSub pat cs

def removeAll (a : Char) (l : List Char) : List Char := l.filter (fun c => ¬ c = a)

/-- Scan of the companion `input` file for the
`starting date of simulation` line; `year = int(s[2][:4])` after
stripping spaces and splitting on commas. -/
def outflw1Year? (inputLines : List String) : Except Unit (Nat × List (List Char)) :=
  match inputLines.find? (fun l => containsSub "starting date of simulation".data l.data) with
  | none => .error ()
  | some ln =>
    let s := splitOnChar ',' (removeAll ' ' ln.data)
    match s.get? 2 with
    | none => .error ()
    | some f =>
      match parseNat? (f.take 4) with
      | some y => .ok (y, s)
      | none => .error ()

/-- Loop state of `read.outflw1`: the running year, the last split line
`s` (the companion-file split before the first data line), the
per-station buffers in insertion order, and the `init` flag. -/
structure O1State where
  year : Nat
  s : List (List Char)
  bufs : List (List Char × List Char)
  init : Bool
deriving DecidableEq

/-- `sio[s[3]] = StringIO(); sio[s[3]].write(...)`: create or reset the
buffer of a station (the `init == 0` branch overwrites an existing
buffer). -/
def setBuf : List (List Char × List Char) → List Char → List Char →
    List (List Char × List Char)
  | [], k, v => [(k, v)]
  | (k', v') :: bs, k, v =>
    if k' = k then (k', v) :: bs else (k', v') :: setBuf bs k v

/-- `sio[s[3]].write(...)` on the `init == 1` path: appends, `KeyError`
(none) for an unseen station. -/
def appendBuf : List (List Char × List Char) → List Char → List Char →
    Option (List (List Char × List Char))
  | [], _, _ => none
  | (k', v') :: bs, k, v =>
    if k' = k then some ((k', v' ++ v) :: bs)
    else (appendBuf bs k v).map (fun r => (k', v') :: r)

/-- The short-circuit test
`s[0] == '12' and s[1] == '31' and s[2] == '23.0'`. -/
def rollover? (s : List (List Char)) : Except Unit Bool :=
  match s.get? 0 with
  | none => .error ()
  | some t0 =>
    if t0 ≠ "12".data then .ok false
    else
      match s.get? 1 with
      | none => .error ()
      | some t1 =>
        if t1 ≠ "31".data then .ok false
        else
          match s.get? 2 with
          | none => .error ()
          | some t2 => .ok (t2 = "23.0".data)

/-- One iteration of the `read.outflw1` loop (src/read.py lines
415-434). -/
def o1Step (st : O1State) (lnS : String) : Except Unit O1State :=
  let ln := lnS.data
  if (pyStrip ln).isEmpty then do
    let r ← rollover? st.s
    .ok { st with init := true, year := if r then st.year + 1 else st.year }
  else
    let s := splitWs ln
    match s.get? 3 with
    | none => .error ()
    | some key => do
      let tail ←
        (if s.length = 11 then .ok (joinChar ',' (s.drop 9) ++ ['\n'])
         else
           match s.get? 8, s.get? 9 with
           | some t8, some t9 => .ok (joinChar ',' [t8.drop 2, t9] ++ ['\n'])
           | _, _ => Except.error ())
      let head := renderNat st.year ++ '-' :: s.getD 0 [] ++ '-' :: s.getD 1 [] ++
        ' ' :: (breakAt '.' (s.getD 2 [])).1 ++ ":00:00,".data
      let row := head ++ joinChar ',' ((s.drop 4).take 4) ++ [','] ++ tail
      if st.init = false then
        .ok { st with s := s, bufs := setBuf st.bufs key row }
      else
        match appendBuf st.bufs key row with
        | some bufs2 => .ok { st with s := s, bufs := bufs2 }
        | none => .error ()

/-- Final `read_csv` of one station buffer: a datetime index plus the
six named columns `tide, elevation, depth, velocity, direction,
salinity`. -/
def o1Csv (text : List Char) : Except Unit (List (Nat × List (Option ℚ))) :=
  mapE (fun r => do
    let fs := csvFields r
    if fs.length > 7 then .error ()
    else
      match fs with
      | dstr :: rest =>
        match parseVelDate? dstr with
        | some k => do
          let cells ← mapE (cellQ? []) (rest ++ List.replicate (6 - rest.length) [])
          .ok (k, cells)
        | none => .error ()
      | [] => .error ()) (csvLines text)

namespace read

/-- `read.outflw1` (src/read.py lines 358-444): the first argument is
the companion `input` file, the second the `outflw1` file (whose first
five lines are discarded).  The result maps each check node, in first
appearance order, to its hourly table. -/
def outflw1 (inputLines outLines : List String) :
    Except Unit (List (List Char × List (Nat × List (Option ℚ)))) := do
  let p ← outflw1Year? inputLines
  if outLines.length < 5 then .error ()
  else do
    let st ← foldE o1Step ⟨p.1, p.2, [], false⟩ (outLines.drop 5)
    mapE (fun b => do
      let rows ← o1Csv b.2
      .ok (b.1, rows)) st.bufs

/-- Failure modes of the `outflw2` reindexing block. -/
inductive O2Err
  | raisedOnSuccess
  | lengthMismatch
deriving DecidableEq

/-- Control flow of `read.outflw2`'s reindexing block
(src/build/lib/tbtools/read.py lines 997-1010): `try` assigning the
hourly `date_range` (succeeds exactly when the row count matches the
range length), `except` drops the last row and retries, and the `else`
branch — reached exactly when the `try` body raised nothing — prints
`Model dates do not match contents of outflw2 files` and bare-`raise`s. -/
def outflw2Assemble {α : Type} (rows : List α) (dates : List Nat) :
    Except O2Err (List (Nat × α)) :=
  if rows.length = dates.length then .error .raisedOnSuccess
  else if rows.length - 1 = dates.length then .ok (dates.zip rows.dropLast)
  else .error .lengthMismatch

end read

/-! ### The fixed-width writers -/

namespace write

/-- One output line of `write.gensal` (src/tbtools/write.py line 33):
`'%3i%3i' + twelve '%6.2f' + '%6i %8s' + newline`. -/
def gensalLine (t : DT) (vs : List ℚ) (loc : String) : List Char :=
  padLeft 3 (renderInt t.month) ++ padLeft 3 (renderInt t.day) ++
    (vs.map (fun v => padLeft 6 (renderF2 (round2 v)))).flatten ++
    padLeft 6 (renderInt t.year) ++ ' ' :: padLeft 8 loc.data ++ ['\n']

/-- One output line of `write.tide` (src/tbtools/write.py line 69);
identical except for the left-justified `%-8s` label. -/
def tideLine (t : DT) (vs : List ℚ) (col : String) : List Char :=
  padLeft 3 (renderInt t.month) ++ padLeft 3 (renderInt t.day) ++
    (vs.map (fun v => padLeft 6 (renderF2 (round2 v)))).flatten ++
    padLeft 6 (renderInt t.year) ++ ' ' :: padRight 8 col.data ++ ['\n']

/-- The scalar accesses `df.index[i]` and `df.salinity[i] ..
df.salinity[i+11]` of one loop iteration; `none` is the `IndexError` on
a partial trailing group. -/
def group12? (rows : List (DT × ℚ)) (i : Nat) : Option (DT × List ℚ) := do
  let r0 ← rows.get? i
  let vs ← mapO (fun k => (rows.get? (i + k)).map (fun r => r.2)) (List.range 12)
  pure (r0.1, vs)

/-- `range(0, len(df), 12)`. -/
def groupStarts (n : Nat) : List Nat := (List.range ((n + 11) / 12)).map (fun j => j * 12)

/-- `write.gensal` (src/tbtools/write.py lines 6-42): the rows pair each
index timestamp with its `salinity` value. -/
def gensal (rows : List (DT × ℚ)) (loc : String) : Except Unit (List String) :=
  mapE (fun i =>
    match group12? rows i with
    | some g => .ok (String.mk (gensalLine g.1 g.2 loc))
    | none => .error ()) (groupStarts rows.length)

/-- `write.tide` (src/tbtools/write.py lines 44-79): `col` is
`df.columns[0]`, used both to select the values and as the trailing
label. -/
def tide (col : String) (rows : List (DT × ℚ)) : Except Unit (List String) :=
  mapE (fun i =>
    match group12? rows i with
    | some g => .ok (String.mk (tideLine g.1 g.2 col))
    | none => .error ()) (groupStarts rows.length)

end write

/-! ### Facts about the fallible maps -/

theorem mapE_ok_length {α β : Type} {f : α → Except Unit β} :
    ∀ {l : List α} {res : List β}, mapE f l = .ok res → res.length = l.length := by
  intro l
  induction l with
  | nil =>
    intro res h
    rw [mapE] at h
    cases h
    rfl
  | cons x xs ih =>
    intro res h
    rw [mapE] at h
    cases hfx : f x with
    | error e => rw [hfx] at h; cases h
    | ok y =>
      rw [hfx] at h
      cases hrest : mapE f xs with
      | error e => rw [hrest] at h; cases h
      | ok ys =>
        rw [hrest] at h
        cases h
        simp [ih hrest]

theorem mapE_error_of_mem {α β : Type} {f : α → Except Unit β} {x : α} :
    ∀ {l : List α}, x ∈ l → f x = .error () → mapE f l = .error () := by
  intro l
  induction l with
  | nil => intro h; cases h
  | cons y ys ih =>
    intro hmem hfx
    rw [mapE]
    rcases List.mem_cons.mp hmem with rfl | hmem2
    · rw [hfx]
    · cases hfy : f y with
      | error e => cases e; rfl
      | ok z => rw [ih hmem2 hfx]; rfl

theorem mapE_isOk_of_forall {α β : Type} {f : α → Except Unit β} :
    ∀ {l : List α}, (∀ x ∈ l, ∃ y, f x = .ok y) →
      ∃ res, mapE f l = .ok res ∧ res.length = l.length := by
  intro l
  induction l with
  | nil => intro _; exact ⟨[], rfl, rfl⟩
  | cons x xs ih =>
    intro h
    obtain ⟨y, hy⟩ := h x (List.mem_cons_self _ _)
    obtain ⟨res, hres, hlen⟩ := ih (fun z hz => h z (List.mem_cons_of_mem x hz))
    refine ⟨y :: res, ?_, by simp [hlen]⟩
    rw [mapE, hy, hres]
    rfl

theorem mapE_congr_ok {α β : Type} {f : α → Except Unit β} {g : α → β} :
    ∀ {l : List α}, (∀ x ∈ l, f x = .ok (g x)) → mapE f l = .ok (l.map g) := by
  intro l
  induction l with
  | nil => intro _; rfl
  | cons x xs ih =>
    intro h
    rw [mapE, h x (List.mem_cons_self _ _), ih (fun z hz => h z (List.mem_cons_of_mem x hz))]
    rfl

theorem mapO_none_of_mem {α β : Type} {f : α → Option β} {x : α} :
    ∀ {l : List α}, x ∈ l → f x = none → mapO f l = none := by
  intro l
  induction l with
  | nil => intro h; cases h
  | cons y ys ih =>
    intro hmem hfx
    rw [mapO]
    rcases List.mem_cons.mp hmem with rfl | hmem2
    · rw [hfx]
    · cases hfy : f y with
      | none => rfl
      | some z => rw [ih hmem2 hfx]; rfl

theorem mapO_isSome_of_forall {α β : Type} {f : α → Option β} :
    ∀ {l : List α}, (∀ x ∈ l, ∃ y, f x = some y) →
      ∃ res, mapO f l = some res ∧ res.length = l.length := by
  intro l
  induction l with
  | nil => intro _; exact ⟨[], rfl, rfl⟩
  | cons x xs ih =>
    intro h
    obtain ⟨y, hy⟩ := h x (List.mem_cons_self _ _)
    obtain ⟨res, hres, hlen⟩ := ih (fun z hz => h z (List.mem_cons_of_mem x hz))
    refine ⟨y :: res, ?_, by simp [hlen]⟩
    rw [mapO, hy, hres]
    rfl

theorem mapO_congr_some {α β : Type} {f : α → Option β} {g : α → β} :
    ∀ {l : List α}, (∀ x ∈ l, f x = some (g x)) → mapO f l = some (l.map g) := by
  intro l
  induction l with
  | nil => intro _; rfl
  | cons x xs ih =>
    intro h
    rw [mapO, h x (List.mem_cons_self _ _), ih (fun z hz => h z (List.mem_cons_of_mem x hz))]
    rfl

/-! ### Behaviour of the writer loop on complete and partial groups -/

theorem group12_isSome {rows : List (DT × ℚ)} {i : Nat} (h : i + 12 ≤ rows.length) :
    ∃ g, write.group12? rows i = some g := by
  have h0 : rows.get? i = some (rows.get ⟨i, by omega⟩) := List.get?_eq_get (by omega)
  obtain ⟨vs, hvs, _⟩ := mapO_isSome_of_forall
    (f := fun k => (rows.get? (i + k)).map (fun r => r.2))
    (l := List.range 12) (fun k hk => by
      have hk12 : k < 12 := List.mem_range.mp hk
      have : rows.get? (i + k) = some (rows.get ⟨i + k, by omega⟩) :=
        List.get?_eq_get (by omega)
      exact ⟨(rows.get ⟨i + k, by omega⟩).2, by dsimp only; rw [this]; rfl⟩)
  refine ⟨((rows.get ⟨i, by omega⟩).1, vs), ?_⟩
  rw [write.group12?]
  show ((rows.get? i).bind fun r0 => _) = _
  rw [h0]
  show ((mapO _ (List.range 12)).bind fun vs => _) = _
  rw [hvs]
  rfl

theorem group12_none {rows : List (DT × ℚ)} {i : Nat} (h : rows.length < i + 12) :
    write.group12? rows i = none := by
  rw [write.group12?]
  rcases le_or_lt rows.length i with hi | hi
  · have h0 : rows.get? i = none := List.get?_eq_none.mpr hi
    show ((rows.get? i).bind fun r0 => _) = _
    rw [h0]
    rfl
  · have h0 : rows.get? i = some (rows.get ⟨i, hi⟩) := List.get?_eq_get hi
    show ((rows.get? i).bind fun r0 => _) = _
    rw [h0]
    show ((mapO _ (List.range 12)).bind fun vs => _) = _
    rw [mapO_none_of_mem (x := 11) (by decide) (by
      rw [List.get?_eq_none.mpr (by omega : rows.length ≤ i + 11)]
      rfl)]
    rfl

/-- C1 (amended): the writer loop `range(0, len(df), 12)` combined with
scalar indexing succeeds, emitting exactly one line per group of 12,
precisely when the index length is a multiple of 12; otherwise the first
incomplete group raises an index-out-of-range error. -/
theorem C1_theorem (rows : List (DT × ℚ)) (loc col : String) :
    ((write.gensal rows loc).toOption.map List.length =
      if rows.length % 12 = 0 then some (rows.length / 12) else none) ∧
    ((write.tide col rows).toOption.map List.length =
      if rows.length % 12 = 0 then some (rows.length / 12) else none) := by
  have hstarts : ∀ i ∈ write.groupStarts rows.length,
      rows.length % 12 = 0 → i + 12 ≤ rows.length := by
    intro i hi hmod
    rw [write.groupStarts, List.mem_map] at hi
    obtain ⟨j, hj, rfl⟩ := hi
    have := List.mem_range.mp hj
    omega
  have hlenStarts : (write.groupStarts rows.length).length = (rows.length + 11) / 12 := by
    rw [write.groupStarts]
    simp
  by_cases hmod : rows.length % 12 = 0
  · rw [if_pos hmod]
    have hok : ∀ i ∈ write.groupStarts rows.length,
        ∃ g, write.group12? rows i = some g :=
      fun i hi => group12_isSome (hstarts i hi hmod)
    constructor
    · obtain ⟨res, hres, hlen⟩ := mapE_isOk_of_forall
        (f := fun i => match write.group12? rows i with
          | some g => .ok (String.mk (write.gensalLine g.1 g.2 loc))
          | none => .error ())
        (l := write.groupStarts rows.length) (fun i hi => by
          obtain ⟨g, hg⟩ := hok i hi
          exact ⟨String.mk (write.gensalLine g.1 g.2 loc), by dsimp only; rw [hg]⟩)
      rw [write.gensal, hres]
      simp only [Except.toOption, Option.map_some']
      rw [hlen, hlenStarts]
      congr 1
      omega
    · obtain ⟨res, hres, hlen⟩ := mapE_isOk_of_forall
        (f := fun i => match write.group12? rows i with
          | some g => .ok (String.mk (write.tideLine g.1 g.2 col))
          | none => .error ())
        (l := write.groupStarts rows.length) (fun i hi => by
          obtain ⟨g, hg⟩ := hok i hi
          exact ⟨String.mk (write.tideLine g.1 g.2 col), by dsimp only; rw [hg]⟩)
      rw [write.tide, hres]
      simp only [Except.toOption, Option.map_some']
      rw [hlen, hlenStarts]
      congr 1
      omega
  · rw [if_neg hmod]
    have hmem : 12 * (rows.length / 12) ∈ write.groupStarts rows.length := by
      rw [write.groupStarts, List.mem_map]
      exact ⟨rows.length / 12, List.mem_range.mpr (by omega), by omega⟩
    have hfail : write.group12? rows (12 * (rows.length / 12)) = none :=
      group12_none (by omega)
    constructor
    · rw [write.gensal, mapE_error_of_mem hmem (by rw [hfail])]
      rfl
    · rw [write.tide, mapE_error_of_mem hmem (by rw [hfail])]
      rfl

/-- A concrete 13-row 2-hour-spaced table (one whole day plus one slot). -/
def bihourly13 : List (DT × ℚ) :=
  (List.range 13).map (fun i => (⟨2001, 1, 1 + i / 12, 2 * (i % 12)⟩, mkRat (15 * (i + 1)) 10))

/-- C1 (counterexample): on a 13-row 2-hour-spaced table both writers
raise (index-out-of-range on the partial trailing group) instead of
silently emitting one line and discarding the remainder. -/
theorem C1_counterexample :
    bihourly13.length = 13 ∧
    write.gensal bihourly13 "OffGalves" = .error () ∧
    write.tide "tide_ft" bihourly13 = .error () := by decide

/-- C9: in the `outflw2` reindexing block, when the initial assignment
of the hourly date range succeeds (row count equals range length), the
`else` branch of the `try` prints the mismatch warning and raises, so
the success path never returns the reindexed table. -/
theorem C9_theorem {α : Type} (rows : List α) (dates : List Nat)
    (h : rows.length = dates.length) :
    read.outflw2Assemble rows dates = .error .raisedOnSuccess := by
  rw [read.outflw2Assemble, if_pos h]

/-- C9 witness: a concrete 3-row, 3-date instance. -/
theorem C9_witness :
    read.outflw2Assemble [(1 : Nat), 2, 3] [10, 20, 30] = .error .raisedOnSuccess :=
  C9_theorem [1, 2, 3] [10, 20, 30] rfl

/-! ### C2: the two inflow/precip continuation sub-formats -/

/-- A header line: exactly three comma fields. -/
def c2header : String := "1941,   1, c\n"

/-- A terminal continuation line (`'3'` at offset 12) whose two
6-character value fields `   123` and `456.78` are not separated by
whitespace. -/
def c2line : String := "1941   1    3   123456.78\n"

/-- C2: the packaged `inflow` reader chunks the bytes after the
offset-12 terminal-marker column into fixed 6-character fields, while
`precip` whitespace-tokenizes and skips the first 3 tokens; on a
continuation line with glued numeric fields the readers produce
different records (two day slots `123` and `456.78` versus a single
slot `123456.78`). -/
theorem C2_theorem :
    readB.inflow [c2header, c2line] =
      .ok ⟨"inflow_cfs", [(dkey 1941 1 1 0, 123), (dkey 1941 1 2 0, mkRat 45678 100)]⟩ ∧
    read.precip [c2header, c2line] =
      .ok ⟨"precip_inches", [(dkey 1941 1 1 0, mkRat 12345678 100)]⟩ ∧
    (readB.inflow [c2header, c2line]).map (fun t => t.rows) ≠
      (read.precip [c2header, c2line]).map (fun t => t.rows) := by decide

/-! ### C10: the packaged tide reader versus the gensal reader -/

/-- C10: the packaged `tide` reader runs exactly the `gensal` pipeline
(same 16-column whitespace layout, same timestamps) and labels its value
column `'salinity'`. -/
theorem C10_theorem (lines : List String) :
    read.tide lines = read.gensal lines ∧
    ∀ t, read.tide lines = .ok t → t.colName = "salinity" := by
  constructor
  · rfl
  · intro t ht
    rw [read.tide] at ht
    simp only [bind, Except.bind] at ht
    cases h1 : mapE recGensal? ((lines.map rowTokens).filter (fun t => ¬ t.isEmpty)) with
    | error e => simp only [h1] at ht; cases ht
    | ok recs =>
      simp only [h1] at ht
      cases h2 : meltGensal recs with
      | error e => simp only [h2] at ht; cases ht
      | ok rows =>
        simp only [h2] at ht
        cases ht
        rfl

def c10line : String :=
  "  1  1  1.0  1.0  1.0  1.0  1.0  1.0  1.0  1.0  1.0  1.0  1.0  1.0  2001 X\n"

/-- C10 witness: a concrete one-day file. -/
theorem C10_witness :
    read.tide [c10line] = read.gensal [c10line] ∧
    OTable.colName ⟨"salinity",
      (List.range 12).map (fun k => (dkey 2001 1 1 (2 * k), some (1 : ℚ)))⟩ = "salinity" :=
  ⟨(C10_theorem [c10line]).1,
    (C10_theorem [c10line]).2 _ (by decide)⟩

theorem mem_insOrdBy {α : Type} [DecidableEq α] {lt : α → α → Bool} {x y : α} :
    ∀ {l : List α}, y ∈ insOrdBy lt x l → y = x ∨ y ∈ l := by
  intro l
  induction l with
  | nil =>
    intro h
    rcases List.mem_singleton.mp h with rfl
    exact Or.inl rfl
  | cons z zs ih =>
    intro h
    rw [insOrdBy] at h
    split at h
    · rcases List.mem_cons.mp h with rfl | h2
      · exact Or.inl rfl
      · exact Or.inr h2
    · split at h
      · exact Or.inr h
      · rcases List.mem_cons.mp h with rfl | h2
        · exact Or.inr (List.mem_cons_self _ _)
        · rcases ih h2 with h3 | h3
          · exact Or.inl h3
          · exact Or.inr (List.mem_cons_of_mem z h3)

theorem qsum_eq_sum (l : List ℚ) : qsum l = l.sum := by
  induction l with
  | nil => simp [qsum]
  | cons x xs ih =>
    have hc : qsum (x :: xs) = qadd x (qsum xs) := rfl
    rw [hc, qadd_eq, ih, List.sum_cons]

/-- A `pivot_table` mean cell is the arithmetic mean of the group. -/
theorem qmean_eq_mean (l : List ℚ) : qmean l = l.sum / l.length := by
  rw [qmean, qdivNat_eq, qsum_eq_sum]

theorem insOrdBy_sorted_nat (x : Nat) : ∀ {l : List Nat},
    List.Pairwise (fun a b => a < b) l →
    List.Pairwise (fun a b => a < b) (insOrdBy natlt x l) := by
  intro l
  induction l with
  | nil =>
    intro _
    simp [insOrdBy]
  | cons y ys ih =>
    intro h
    rcases List.pairwise_cons.mp h with ⟨hy, hys⟩
    rw [insOrdBy]
    by_cases h1 : natlt x y = true
    · rw [if_pos h1]
      have hxy : x < y := by simpa [natlt] using h1
      refine List.pairwise_cons.mpr ⟨?_, h⟩
      intro b hb
      rcases List.mem_cons.mp hb with rfl | hb2
      · exact hxy
      · exact Nat.lt_trans hxy (hy b hb2)
    · rw [if_neg h1]
      by_cases h2 : x = y
      · rw [if_pos h2]
        exact h
      · rw [if_neg h2]
        have hyx : y < x := by
          have hnlt : ¬ x < y := by simpa [natlt] using h1
          omega
        refine List.pairwise_cons.mpr ⟨?_, ih hys⟩
        intro b hb
        rcases mem_insOrdBy hb with rfl | hb2
        · exact hyx
        · exact hy b hb2

theorem sortedDistinctBy_sorted_nat (l : List Nat) :
    List.Pairwise (fun a b => a < b) (sortedDistinctBy natlt l) := by
  induction l with
  | nil => exact List.Pairwise.nil
  | cons x xs ih => exact insOrdBy_sorted_nat x ih

/-- The pivoted wind rows carry strictly increasing timestamps: the
`groupby`/`pivot_table` index is sorted and duplicate-free. -/
theorem windPivot_sorted {pairs : List (Option Nat × Option ℚ × Option ℚ)}
    {rows : List (Nat × Option ℚ × Option ℚ)} (hp : windPivot pairs = .ok rows) :
    List.Pairwise (fun a b : Nat × Option ℚ × Option ℚ => a.1 < b.1) rows := by
  rw [windPivot] at hp
  split at hp
  case h_1 c0 c1 hcols =>
    cases hp
    refine List.pairwise_map.mpr ?_
    exact List.Pairwise.sublist (List.filter_sublist _) (sortedDistinctBy_sorted_nat _)
  case h_2 => cases hp

theorem pairwise_countP_le_one {β : Type} {l : List (Nat × β)}
    (h : List.Pairwise (fun a b => a.1 < b.1) l) (k : Nat) :
    l.countP (fun p => p.1 == k) ≤ 1 := by
  induction l with
  | nil => simp
  | cons x xs ih =>
    rcases List.pairwise_cons.mp h with ⟨hx, hxs⟩
    rw [List.countP_cons]
    by_cases hxk : x.1 = k
    · have hzero : xs.countP (fun p => p.1 == k) = 0 := by
        rw [List.countP_eq_zero]
        intro p hp
        have := hx p hp
        simp only [beq_iff_eq]
        omega
      rw [hzero]
      simp [hxk]
    · have hne : (x.1 == k) = false := by
        simpa using hxk
      rw [hne]
      simpa using ih hxs

/-! ### C6: ordering of the assembled tables -/

def c6avg1 : String := "Average of salinity for  2001 month  1 day  1\n"

def c6avg2 : String := "Average of salinity for  2001 month  1 day  2\n"

/-- C6 (counterexample): `vel` applies no sort, so a file whose
`Average` records appear out of chronological order yields a table whose
timestamps are not increasing. -/
theorem C6_counterexample :
    read.vel [c6avg2, "1.0\n", c6avg1, "2.0\n"] =
      .ok ⟨[(dkey 2001 1 2 0, [['1', '.', '0']]), (dkey 2001 1 1 0, [['2', '.', '0']])]⟩ ∧
    ¬ List.Pairwise (fun a b : Nat × List (List Char) => a.1 < b.1)
      [(dkey 2001 1 2 0, [['1', '.', '0']]), (dkey 2001 1 1 0, [['2', '.', '0']])] := by
  decide

/-- C6 (amended): the readers that call `sort_index` — `inflow`,
`precip`, `pcp`, `gensal` and the packaged `tide` — return tables
sorted ascending by timestamp, with duplicates possible when records
repeat a date; the `wind` reader's `pivot_table` index is strictly
increasing with no duplicate timestamps, as originally claimed; `vel`,
`avesalD` and `outflw1` keep file order, so their output need not be
sorted (see the counterexample). -/
theorem C6_theorem :
    (∀ lines t, read.inflow lines = .ok t →
      List.Pairwise (fun a b => a.1 ≤ b.1) t.rows) ∧
    (∀ lines t, read.precip lines = .ok t →
      List.Pairwise (fun a b => a.1 ≤ b.1) t.rows) ∧
    (∀ lines t, read.pcp lines = .ok t →
      List.Pairwise (fun a b => a.1 ≤ b.1) t.rows) ∧
    (∀ lines t, read.gensal lines = .ok t →
      List.Pairwise (fun a b => a.1 ≤ b.1) t.rows) ∧
    (∀ lines t, read.tide lines = .ok t →
      List.Pairwise (fun a b => a.1 ≤ b.1) t.rows) ∧
    (∀ lines t, read.wind lines = .ok t →
      List.Pairwise (fun a b : Nat × Option ℚ × Option ℚ => a.1 < b.1) t.rows) := by
  refine ⟨?_, ?_, ?_, ?_, ?_, ?_⟩
  · intro lines t ht
    rw [read.inflow] at ht
    simp only [bind, Except.bind] at ht
    cases h1 : mergeRun inflowStep lines with
    | error e => simp only [h1] at ht; cases ht
    | ok out =>
      simp only [h1] at ht
      cases h2 : mapE (fun l => recYM? [] (csvFields l)) (csvLines out) with
      | error e => simp only [h2] at ht; cases ht
      | ok recs =>
        simp only [h2] at ht
        cases h3 : datesYM? (meltYM recs) with
        | error e => simp only [h3] at ht; cases ht
        | ok rows =>
          simp only [h3] at ht
          cases ht
          exact sortByKey_sorted rows
  · intro lines t ht
    rw [read.precip] at ht
    simp only [bind, Except.bind] at ht
    cases h1 : mergeRun precipStep lines with
    | error e => simp only [h1] at ht; cases ht
    | ok out =>
      simp only [h1] at ht
      cases h2 : mapE (fun l => recYM? [] (csvFields l)) (csvLines out) with
      | error e => simp only [h2] at ht; cases ht
      | ok recs =>
        simp only [h2] at ht
        cases h3 : datesYM? (meltYM recs) with
        | error e => simp only [h3] at ht; cases ht
        | ok rows =>
          simp only [h3] at ht
          cases ht
          exact sortByKey_sorted rows
  · intro lines t ht
    rw [read.pcp] at ht
    simp only [bind, Except.bind] at ht
    cases h0 : foldE pcpStep ⟨none, none, []⟩ lines with
    | error e => simp only [h0] at ht; cases ht
    | ok st =>
      simp only [h0] at ht
      cases hws : st.ws with
      | none => simp only [hws] at ht; cases ht
      | some w =>
        simp only [hws] at ht
        cases h2 : mapE (fun l => recWsYM? (csvFields l)) (csvLines st.out) with
        | error e => simp only [h2] at ht; cases ht
        | ok recs =>
          simp only [h2] at ht
          cases h3 : datesYM? (meltWsYM recs) with
          | error e => simp only [h3] at ht; cases ht
          | ok rows =>
            simp only [h3] at ht
            cases ht
            exact sortByKey_sorted rows
  · intro lines t ht
    rw [read.gensal] at ht
    simp only [bind, Except.bind] at ht
    cases h1 : mapE recGensal? ((lines.map rowTokens).filter (fun t => ¬ t.isEmpty)) with
    | error e => simp only [h1] at ht; cases ht
    | ok recs =>
      simp only [h1] at ht
      cases h2 : meltGensal recs with
      | error e => simp only [h2] at ht; cases ht
      | ok rows =>
        simp only [h2] at ht
        cases ht
        exact sortByKey_sorted rows
  · intro lines t ht
    rw [read.tide] at ht
    simp only [bind, Except.bind] at ht
    cases h1 : mapE recGensal? ((lines.map rowTokens).filter (fun t => ¬ t.isEmpty)) with
    | error e => simp only [h1] at ht; cases ht
    | ok recs =>
      simp only [h1] at ht
      cases h2 : meltGensal recs with
      | error e => simp only [h2] at ht; cases ht
      | ok rows =>
        simp only [h2] at ht
        cases ht
        exact sortByKey_sorted rows
  · intro lines t ht
    rw [read.wind] at ht
    simp only [bind, Except.bind] at ht
    cases h1 : mapE recWind? ((lines.map rowTokens).filter (fun t => ¬ t.isEmpty)) with
    | error e => simp only [h1] at ht; cases ht
    | ok recs =>
      simp only [h1] at ht
      cases h2 : windPivot (windPairs recs) with
      | error e => simp only [h2] at ht; cases ht
      | ok rows =>
        simp only [h2] at ht
        cases ht
        exact windPivot_sorted h2

def c6inflowFile : List String := ["1941,   1, c\n", "1941   1    3 1.0 2.0\n"]

def c6pcpFile : List String :=
  ["1   BUFFL1941 1    123.45\n", "4  234.56  ignore  junk\n"]

/-- Four wind records: two sites-free days, each with a `dir` and a
`spd` observation at hour 0. -/
def c6windFile : List String :=
  ["2001 2 27 S 1 3\n", "2001 2 27 S 2 4\n", "2001 2 28 S 1 5\n", "2001 2 28 S 2 6\n"]

set_option maxRecDepth 10000 in
/-- C6 witness: each sorted-format conjunct applied at a concrete file. -/
theorem C6_witness :
    List.Pairwise (fun a b : Nat × ℚ => a.1 ≤ b.1)
      (QTable.rows ⟨"inflow_cfs", [(dkey 1941 1 1 0, 1), (dkey 1941 1 2 0, 2)]⟩) ∧
    List.Pairwise (fun a b : Nat × ℚ => a.1 ≤ b.1)
      (QTable.rows ⟨"precip_inches", [(dkey 1941 1 1 0, 1), (dkey 1941 1 2 0, 2)]⟩) ∧
    List.Pairwise (fun a b : Nat × ℚ => a.1 ≤ b.1)
      (QTable.rows ⟨"BUFFL_pcp",
        [(dkey 1941 1 1 0, mkRat 12345 100), (dkey 1941 1 2 0, mkRat 23456 100)]⟩) ∧
    List.Pairwise (fun a b : Nat × Option ℚ => a.1 ≤ b.1)
      (OTable.rows ⟨"salinity",
        (List.range 12).map (fun k => (dkey 2001 1 1 (2 * k), some (1 : ℚ)))⟩) ∧
    List.Pairwise (fun a b : Nat × Option ℚ => a.1 ≤ b.1)
      (OTable.rows ⟨"salinity",
        (List.range 12).map (fun k => (dkey 2001 1 1 (2 * k), some (1 : ℚ)))⟩) ∧
    List.Pairwise (fun a b : Nat × Option ℚ × Option ℚ => a.1 < b.1)
      (WTable.rows ⟨[(dkey 2001 2 27 0, some 30, some 4),
        (dkey 2001 2 28 0, some 50, some 6)]⟩) :=
  ⟨C6_theorem.1 c6inflowFile _ (by decide),
   C6_theorem.2.1 c6inflowFile _ (by decide),
   C6_theorem.2.2.1 c6pcpFile _ (by decide),
   C6_theorem.2.2.2.1 [c10line] _ (by decide),
   C6_theorem.2.2.2.2.1 [c10line] _ (by decide),
   C6_theorem.2.2.2.2.2 c6windFile _ (by decide)⟩

/-! ### C3: blank / comment line handling -/

/-- A line that is empty after trimming or starts with `'#'`. -/
def skipLine (c : String) : Prop :=
  (pyStrip c.data).isEmpty = true ∨ c.data.head? = some '#'

theorem foldE_append {σ α : Type} (f : σ → α → Except Unit σ) (s : σ) (l1 l2 : List α) :
    foldE f s (l1 ++ l2) = (foldE f s l1).bind (fun s2 => foldE f s2 l2) := by
  induction l1 generalizing s with
  | nil => rfl
  | cons x xs ih =>
    rw [List.cons_append]
    cases hfx : f s x with
    | error e => simp only [foldE, hfx]; rfl
    | ok s2 => simp only [foldE, hfx]; exact ih s2

theorem foldE_skip {σ α : Type} {f : σ → α → Except Unit σ} {c : α}
    (hc : ∀ st : σ, f st c = .ok st) (s : σ) (pre post : List α) :
    foldE f s (pre ++ c :: post) = foldE f s (pre ++ post) := by
  rw [foldE_append, foldE_append]
  cases foldE f s pre with
  | error e => rfl
  | ok s2 =>
    show foldE f s2 (c :: post) = foldE f s2 post
    rw [foldE, hc s2]

theorem inflowStep_skip (st : MergeState) (c : String) (h : skipLine c) :
    inflowStep st c = .ok st := by
  by_cases hb : (pyStrip c.data).isEmpty
  · simp only [inflowStep]
    rw [if_pos hb]
  · rcases h with h | h
    · exact absurd h hb
    · simp only [inflowStep]
      rw [if_neg hb, if_pos h]

theorem precipStep_skip (st : MergeState) (c : String) (h : skipLine c) :
    precipStep st c = .ok st := by
  by_cases hb : (pyStrip c.data).isEmpty
  · simp only [precipStep]
    rw [if_pos hb]
  · rcases h with h | h
    · exact absurd h hb
    · simp only [precipStep]
      rw [if_neg hb, if_pos h]

theorem pcpStep_skip (st : PcpState) (c : String) (h : skipLine c) :
    pcpStep st c = .ok st := by
  by_cases hb : (pyStrip c.data).isEmpty
  · simp only [pcpStep]
    rw [if_pos hb]
  · rcases h with h | h
    · exact absurd h hb
    · simp only [pcpStep]
      rw [if_neg hb, if_pos h]

theorem velStep_blank (st : MergeState) (c : String)
    (h : (pyStrip c.data).isEmpty = true) : velStep st c = .ok st := by
  simp only [velStep]
  rw [if_pos h]

/-- C3 (amended): a line that is blank after trimming or starts with
`'#'` is ignored unconditionally by `inflow`, `precip` and `pcp`; `vel`
(and the verbatim-identical `avesalD`) ignore blank lines, but treat a
`'#'` line with no alphabetic character as data (see the
counterexample), and in `outflw1` a blank line arms the year-rollover
state rather than being ignored. -/
theorem C3_theorem (pre post : List String) (c : String) (hc : skipLine c)
    (b : String) (hb : (pyStrip b.data).isEmpty = true) :
    read.inflow (pre ++ c :: post) = read.inflow (pre ++ post) ∧
    read.precip (pre ++ c :: post) = read.precip (pre ++ post) ∧
    read.pcp (pre ++ c :: post) = read.pcp (pre ++ post) ∧
    read.vel (pre ++ b :: post) = read.vel (pre ++ post) ∧
    read.avesalD (pre ++ b :: post) = read.avesalD (pre ++ post) := by
  refine ⟨?_, ?_, ?_, ?_, ?_⟩
  · rw [read.inflow, read.inflow, mergeRun, mergeRun,
      foldE_skip (fun st => inflowStep_skip st c hc)]
  · rw [read.precip, read.precip, mergeRun, mergeRun,
      foldE_skip (fun st => precipStep_skip st c hc)]
  · rw [read.pcp, read.pcp, foldE_skip (fun st => pcpStep_skip st c hc)]
  · rw [read.vel, read.vel, foldE_skip (fun st => velStep_blank st b hb)]
  · rw [read.avesalD, read.avesalD, foldE_skip (fun st => velStep_blank st b hb)]

def c3avg : String := "Average of salinity for  2001 month  1 day  1\n"

/-- C3 (counterexample): in `vel` a line whose first character is `'#'`
but which contains no alphabetic character is appended to the pending
merged record as a field value, so it is not ignored. -/
theorem C3_counterexample :
    read.vel [c3avg, "#5\n"] = .ok ⟨[(dkey 2001 1 1 0, [['#', '5']])]⟩ ∧
    read.vel [c3avg] = .ok ⟨[(dkey 2001 1 1 0, [])]⟩ ∧
    read.vel [c3avg, "#5\n"] ≠ read.vel [c3avg] := by decide

/-- C3 witness: inserting a `'# x'` comment (or a blank line for `vel`)
at the front of a concrete file leaves every reader's result unchanged. -/
theorem C3_witness :
    read.inflow ([] ++ "# x\n" :: c6inflowFile) = read.inflow ([] ++ c6inflowFile) ∧
    read.precip ([] ++ "# x\n" :: c6inflowFile) = read.precip ([] ++ c6inflowFile) ∧
    read.pcp ([] ++ "# x\n" :: c6inflowFile) = read.pcp ([] ++ c6inflowFile) ∧
    read.vel ([] ++ " \n" :: c6inflowFile) = read.vel ([] ++ c6inflowFile) ∧
    read.avesalD ([] ++ " \n" :: c6inflowFile) = read.avesalD ([] ++ c6inflowFile) :=
  C3_theorem [] c6inflowFile "# x\n" (Or.inr rfl) " \n" (by decide)

/-! ### C7: outflw1 year rollover -/

instance decEqO1Row : DecidableEq (List Char × List (Nat × List (Option ℚ))) :=
  inferInstance

theorem rollover_true {s : List (List Char)} (h0 : s.get? 0 = some "12".data)
    (h1 : s.get? 1 = some "31".data) (h2 : s.get? 2 = some "23.0".data) :
    rollover? s = .ok true := by
  rw [rollover?, h0]
  dsimp only
  rw [if_neg (by simp), h1]
  dsimp only
  rw [if_neg (by simp), h2]
  dsimp only
  simp

def c7input : List String := ["the starting date of simulation, 1 , 2001-12-30\n"]

def c7row (m d h : Nat) : String :=
  String.mk (renderNat m) ++ " " ++ String.mk (renderNat d) ++ " " ++
    String.mk (renderNat h) ++ ".0 N1 0.1 0.2 0.3 0.4 X 0.5 0.6\n"

/-- One simulated day at node `N1`: an hourly record line followed by
the blank separator that closes each hour block. -/
def c7day (m d : Nat) : List String :=
  (List.range 24).flatMap (fun h => [c7row m d h, "\n"])

def c7file : List String :=
  ["h1\n", "h2\n", "h3\n", "h4\n", "h5\n"] ++ c7day 12 30 ++ c7day 12 31 ++ c7day 1 1

def c7cells : List (Option ℚ) :=
  [some (mkRat 1 10), some (mkRat 2 10), some (mkRat 3 10),
   some (mkRat 4 10), some (mkRat 5 10), some (mkRat 6 10)]

def c7expected : List (Nat × List (Option ℚ)) :=
  ((List.range 24).map (fun h => (dkey 2001 12 30 h, c7cells))) ++
    ((List.range 24).map (fun h => (dkey 2001 12 31 h, c7cells))) ++
    ((List.range 24).map (fun h => (dkey 2002 1 1 h, c7cells)))

set_option maxRecDepth 4000 in
/-- C7: a blank line following a record whose first three fields are
`12`, `31`, `23.0` increments the running year, so every subsequent
record is dated with `year + 1`; and on a synthetic 3-day hourly span
Dec 30 through Jan 1 with starting year 2001 read from the companion
input file, the produced dates are 2001-12-30, 2001-12-31 and
2002-01-01. -/
theorem C7_theorem :
    (∀ (st : O1State) (bl : String), st.s.get? 0 = some "12".data →
      st.s.get? 1 = some "31".data → st.s.get? 2 = some "23.0".data →
      (pyStrip bl.data).isEmpty = true →
      o1Step st bl = .ok { st with init := true, year := st.year + 1 }) ∧
    read.outflw1 c7input c7file = .ok [("N1".data, c7expected)] := by
  constructor
  · intro st bl h0 h1 h2 hbl
    unfold o1Step
    rw [if_pos hbl]
    show (rollover? st.s).bind _ = _
    rw [rollover_true h0 h1 h2]
    rfl
  · decide

/-- C7 witness: the rollover step applied at a concrete loop state. -/
theorem C7_witness :
    o1Step ⟨2001, ["12".data, "31".data, "23.0".data], [("N1".data, [])], true⟩ "\n" =
      .ok ⟨2002, ["12".data, "31".data, "23.0".data], [("N1".data, [])], true⟩ :=
  C7_theorem.1 ⟨2001, ["12".data, "31".data, "23.0".data], [("N1".data, [])], true⟩
    "\n" rfl rfl rfl (by decide)

/-! ### Correspondence lemmas for the melt / date stages -/

theorem mapE_ok_forall2 {α β : Type} {f : α → Except Unit β} :
    ∀ {l : List α} {res : List β}, mapE f l = .ok res →
      List.Forall₂ (fun x y => f x = .ok y) l res := by
  intro l
  induction l with
  | nil =>
    intro res h
    rw [mapE] at h
    cases h
    exact List.Forall₂.nil
  | cons x xs ih =>
    intro res h
    rw [mapE] at h
    cases hfx : f x with
    | error e => rw [hfx] at h; cases h
    | ok y =>
      rw [hfx] at h
      cases hrest : mapE f xs with
      | error e => rw [hrest] at h; cases h
      | ok ys =>
        rw [hrest] at h
        cases h
        exact List.Forall₂.cons hfx (ih hrest)

theorem forall2_exists_iff {α β : Type} {R : α → β → Prop} {p : β → Prop} {q : α → Prop} :
    ∀ {l : List α} {res : List β}, List.Forall₂ R l res →
      (∀ x y, R x y → (p y ↔ q x)) → ((∃ y ∈ res, p y) ↔ ∃ x ∈ l, q x) := by
  intro l res h
  induction h with
  | nil => intro _; simp
  | cons hxy _ ih =>
    intro hpq
    simp only [List.mem_cons]
    constructor
    · rintro ⟨y, hy | hy, hpy⟩
      · exact ⟨_, Or.inl rfl, (hpq _ _ hxy).mp (hy ▸ hpy)⟩
      · obtain ⟨x, hx, hqx⟩ := (ih hpq).mp ⟨y, hy, hpy⟩
        exact ⟨x, Or.inr hx, hqx⟩
    · rintro ⟨x, hx | hx, hqx⟩
      · exact ⟨_, Or.inl rfl, (hpq _ _ hxy).mpr (hx ▸ hqx)⟩
      · obtain ⟨y, hy, hpy⟩ := (ih hpq).mpr ⟨x, hx, hqx⟩
        exact ⟨y, Or.inr hy, hpy⟩

theorem forall2_countP {α β : Type} {R : α → β → Prop} {p : β → Bool} {q : α → Bool} :
    ∀ {l : List α} {res : List β}, List.Forall₂ R l res →
      (∀ x y, R x y → (p y = q x)) → res.countP p = l.countP q := by
  intro l res h
  induction h with
  | nil => intro _; rfl
  | cons hxy _ ih =>
    intro hpq
    rw [List.countP_cons, List.countP_cons, ih hpq, hpq _ _ hxy]

theorem countP_sortByKey {α : Type} (l : List (Nat × α)) (p : Nat × α → Bool) :
    (sortByKey l).countP p = l.countP p :=
  (sortByKey_perm l).countP_eq p

theorem exists_mem_sortByKey {α : Type} {l : List (Nat × α)} {p : Nat × α → Prop} :
    (∃ x ∈ sortByKey l, p x) ↔ ∃ x ∈ l, p x := by
  constructor
  · rintro ⟨x, hx, hp⟩
    exact ⟨x, (sortByKey_perm l).mem_iff.mp hx, hp⟩
  · rintro ⟨x, hx, hp⟩
    exact ⟨x, (sortByKey_perm l).mem_iff.mpr hx, hp⟩

/-- Membership in the melted-and-dropna'd pcp rows. -/
theorem mem_meltWsYM {recs : List RecWsYM} {row : ℚ × ℚ × Nat × ℚ} :
    row ∈ meltWsYM recs ↔
      ∃ r ∈ recs, ∃ j, j < 31 ∧ (∃ w, r.ws = some w) ∧ r.year = some row.1 ∧
        r.month = some row.2.1 ∧ row.2.2.1 = j + 1 ∧
        r.days.getD j none = some row.2.2.2 := by
  rw [meltWsYM, List.mem_flatMap]
  constructor
  · rintro ⟨j, hj, hrow⟩
    obtain ⟨r, hr, hfr⟩ := List.mem_filterMap.mp hrow
    refine ⟨r, hr, j, List.mem_range.mp hj, ?_⟩
    cases hws : r.ws with
    | none => rw [hws] at hfr; cases hfr
    | some w =>
      cases hy : r.year with
      | none => rw [hws, hy] at hfr; cases hfr
      | some y =>
        cases hm : r.month with
        | none => rw [hws, hy, hm] at hfr; cases hfr
        | some m =>
          cases hv : r.days.getD j none with
          | none => rw [hws, hy, hm, hv] at hfr; cases hfr
          | some v =>
            rw [hws, hy, hm, hv] at hfr
            cases hfr
            exact ⟨⟨w, rfl⟩, rfl, rfl, rfl, rfl⟩
  · rintro ⟨r, hr, j, hj, ⟨w, hws⟩, hy, hm, hday, hv⟩
    refine ⟨j, List.mem_range.mpr hj, List.mem_filterMap.mpr ⟨r, hr, ?_⟩⟩
    rw [hws, hy, hm, hv]
    obtain ⟨a, b, c, d⟩ := row
    simp only at hy hm hday hv ⊢
    rw [hday]

/-- Membership in the melted-and-dropna'd inflow/precip rows. -/
theorem mem_meltYM {recs : List RecYM} {row : ℚ × ℚ × Nat × ℚ} :
    row ∈ meltYM recs ↔
      ∃ r ∈ recs, ∃ j, j < 31 ∧ r.year = some row.1 ∧ r.month = some row.2.1 ∧
        row.2.2.1 = j + 1 ∧ r.days.getD j none = some row.2.2.2 := by
  rw [meltYM, List.mem_flatMap]
  constructor
  · rintro ⟨j, hj, hrow⟩
    obtain ⟨r, hr, hfr⟩ := List.mem_filterMap.mp hrow
    refine ⟨r, hr, j, List.mem_range.mp hj, ?_⟩
    cases hy : r.year with
    | none => rw [hy] at hfr; cases hfr
    | some y =>
      cases hm : r.month with
      | none => rw [hy, hm] at hfr; cases hfr
      | some m =>
        cases hv : r.days.getD j none with
        | none => rw [hy, hm, hv] at hfr; cases hfr
        | some v =>
          rw [hy, hm, hv] at hfr
          cases hfr
          exact ⟨rfl, rfl, rfl, rfl⟩
  · rintro ⟨r, hr, j, hj, hy, hm, hday, hv⟩
    refine ⟨j, List.mem_range.mpr hj, List.mem_filterMap.mpr ⟨r, hr, ?_⟩⟩
    rw [hy, hm, hv]
    obtain ⟨a, b, c, d⟩ := row
    simp only at hy hm hday hv ⊢
    rw [hday]

theorem mem_sortedDistinctBy {α : Type} [DecidableEq α] {lt : α → α → Bool} {y : α} :
    ∀ {l : List α}, y ∈ sortedDistinctBy lt l → y ∈ l := by
  intro l
  induction l with
  | nil => intro h; cases h
  | cons z zs ih =>
    intro h
    rcases mem_insOrdBy h with rfl | h2
    · exact List.mem_cons_self _ _
    · exact List.mem_cons_of_mem z (ih h2)

theorem qmean_single (x : ℚ) : qmean [x] = x := by
  show qdivNat (qadd x 0) 1 = x
  rw [qadd_eq, qdivNat_eq]
  norm_num

/-! ### C8: invalid-date handling asymmetry -/

theorem datesYM_error {rows : List (ℚ × ℚ × Nat × ℚ)} {row : ℚ × ℚ × Nat × ℚ}
    (hmem : row ∈ rows) (hnone : toDatetimeYMd? row.1 row.2.1 row.2.2.1 = none) :
    datesYM? rows = .error () :=
  mapE_error_of_mem hmem (by simp only [hnone])

/-- Two wind records over the same day where the `dir` variable has a
valid Feb 28 slot, plus a populated record on the impossible date
Feb 30. -/
def c8recs : List RecWind :=
  [⟨some 2001, some 2, some 28, ['S'], some 1, some 3 :: List.replicate 23 none⟩,
   ⟨some 2001, some 2, some 28, ['S'], some 2, some 4 :: List.replicate 23 none⟩,
   ⟨some 2001, some 2, some 30, ['S'], some 1, some 9 :: List.replicate 23 none⟩]

/-- C8: in `inflow`, `precip` and `pcp` a populated slot whose
`(year, month, day)` composite is an impossible calendar date makes the
whole call fail with an invalid-date error, while in `wind`
(`errors='coerce'`) every timestamp of the assembled table comes from a
valid composite — impossible composites are coerced to null and their
slots dropped without raising, as the concrete Feb-30 run shows. -/
theorem C8_theorem :
    (∀ (lines : List String) (out : List Char) (recs : List RecYM) (r : RecYM)
        (j : Nat) (y m v : ℚ),
      mergeRun inflowStep lines = .ok out →
      mapE (fun l => recYM? [] (csvFields l)) (csvLines out) = .ok recs →
      r ∈ recs → j < 31 → r.year = some y → r.month = some m →
      r.days.getD j none = some v → toDatetimeYMd? y m (j + 1) = none →
      read.inflow lines = .error ()) ∧
    (∀ (lines : List String) (out : List Char) (recs : List RecYM) (r : RecYM)
        (j : Nat) (y m v : ℚ),
      mergeRun precipStep lines = .ok out →
      mapE (fun l => recYM? [] (csvFields l)) (csvLines out) = .ok recs →
      r ∈ recs → j < 31 → r.year = some y → r.month = some m →
      r.days.getD j none = some v → toDatetimeYMd? y m (j + 1) = none →
      read.precip lines = .error ()) ∧
    (∀ (lines : List String) (st : PcpState) (w : List Char) (recs : List RecWsYM)
        (r : RecWsYM) (j : Nat) (w2 : List Char) (y m v : ℚ),
      foldE pcpStep ⟨none, none, []⟩ lines = .ok st → st.ws = some w →
      mapE (fun l => recWsYM? (csvFields l)) (csvLines st.out) = .ok recs →
      r ∈ recs → j < 31 → r.ws = some w2 → r.year = some y → r.month = some m →
      r.days.getD j none = some v → toDatetimeYMd? y m (j + 1) = none →
      read.pcp lines = .error ()) ∧
    (∀ (recs : List RecWind) (rows : List (Nat × Option ℚ × Option ℚ)),
      windPivot (windPairs recs) = .ok rows →
      ∀ p ∈ rows, ∃ r ∈ recs, ∃ k, k < 24 ∧ windDate? r k = some p.1) ∧
    windPivot (windPairs c8recs) = .ok [(dkey 2001 2 28 0, some 30, some 4)] := by
  refine ⟨?_, ?_, ?_, ?_, by decide⟩
  · intro lines out recs r j y m v h1 h2 hr hj hy hm hv hinv
    have hmelted : ((y, m, j + 1, v) : ℚ × ℚ × Nat × ℚ) ∈ meltYM recs :=
      mem_meltYM.mpr ⟨r, hr, j, hj, hy, hm, rfl, hv⟩
    have herr : datesYM? (meltYM recs) = .error () := datesYM_error hmelted hinv
    rw [read.inflow]
    simp only [bind, Except.bind, h1, h2, herr]
  · intro lines out recs r j y m v h1 h2 hr hj hy hm hv hinv
    have hmelted : ((y, m, j + 1, v) : ℚ × ℚ × Nat × ℚ) ∈ meltYM recs :=
      mem_meltYM.mpr ⟨r, hr, j, hj, hy, hm, rfl, hv⟩
    have herr : datesYM? (meltYM recs) = .error () := datesYM_error hmelted hinv
    rw [read.precip]
    simp only [bind, Except.bind, h1, h2, herr]
  · intro lines st w recs r j w2 y m v h0 hws h2 hr hj hrw hy hm hv hinv
    have hmelted : ((y, m, j + 1, v) : ℚ × ℚ × Nat × ℚ) ∈ meltWsYM recs :=
      mem_meltWsYM.mpr ⟨r, hr, j, hj, ⟨w2, hrw⟩, hy, hm, rfl, hv⟩
    have herr : datesYM? (meltWsYM recs) = .error () := datesYM_error hmelted hinv
    rw [read.pcp]
    simp only [bind, Except.bind, h0, hws, h2, herr]
  · intro recs rows hp p hpmem
    rw [windPivot] at hp
    split at hp
    case h_2 => cases hp
    case h_1 c0 c1 hcols =>
      cases hp
      obtain ⟨d, hd, rfl⟩ := List.mem_map.mp hpmem
      have hd0 := List.mem_filter.mp hd
      have hd1 := mem_sortedDistinctBy hd0.1
      obtain ⟨pr, hpr, hsel⟩ := List.mem_filterMap.mp hd1
      obtain ⟨dd, hdd1, hdd2⟩ : ∃ dd, pr.1 = some dd ∧ dd = d := by
        cases h1 : pr.1 with
        | none => rw [h1] at hsel; cases hsel
        | some dd =>
          cases h2 : pr.2.1 with
          | none => rw [h1, h2] at hsel; cases hsel
          | some vv =>
            rw [h1, h2] at hsel
            cases hsel
            exact ⟨_, rfl, rfl⟩
      subst hdd2
      rw [windPairs, List.mem_flatMap] at hpr
      obtain ⟨k, hk, hpr2⟩ := hpr
      obtain ⟨r, hr, hreq⟩ := List.mem_map.mp hpr2
      refine ⟨r, hr, k, List.mem_range.mp hk, ?_⟩
      rw [← hdd1, ← hreq]

def c8line30 : String :=
  "1941   2    3 " ++ String.intercalate " " (List.replicate 30 "1.0") ++ "\n"

def c8inflowFile : List String := ["1941,   2, c\n", c8line30]

def c8out : List Char :=
  ("1941,   2," ++ String.intercalate "," (List.replicate 30 "1.0") ++ "\n").data

def c8rec : RecYM := ⟨some 1941, some 2, List.replicate 30 (some 1) ++ [none]⟩

def c8pcpLine2 : String := "2" ++ String.join (List.replicate 29 "    1.00") ++ "\n"

def c8pcpFile : List String :=
  ["1   BUFFL1941 2    123.45\n", c8pcpLine2, "4  234.56  ignore  junk\n"]

def c8pcpMerged : String :=
  "BUFFL,1941, 2,  123.45," ++ String.intercalate "," (List.replicate 29 "    1.00") ++
    ",  234.56\n"

def c8pcpState : PcpState := ⟨some "BUFFL".data, some c8pcpMerged.data, c8pcpMerged.data⟩

def c8pcpRec : RecWsYM :=
  ⟨some "BUFFL".data, some 1941, some 2,
    some (mkRat 12345 100) :: List.replicate 29 (some 1) ++ [some (mkRat 23456 100)]⟩

set_option maxRecDepth 10000 in
/-- C8 witness: a populated February-30 slot makes `inflow`, `precip`
and `pcp` fail, while the wind pivot of `c8recs` (which contains a
populated February-30 slot) succeeds and only carries the valid
February-28 timestamp. -/
theorem C8_witness :
    read.inflow c8inflowFile = .error () ∧
    read.precip c8inflowFile = .error () ∧
    read.pcp c8pcpFile = .error () ∧
    (∃ r ∈ c8recs, ∃ k, k < 24 ∧ windDate? r k = some (dkey 2001 2 28 0)) :=
  ⟨C8_theorem.1 c8inflowFile c8out [c8rec] c8rec 29 1941 2 1 (by decide) (by decide)
      (by decide) (by decide) (by decide) (by decide) (by decide) (by decide),
   C8_theorem.2.1 c8inflowFile c8out [c8rec] c8rec 29 1941 2 1 (by decide) (by decide)
      (by decide) (by decide) (by decide) (by decide) (by decide) (by decide),
   C8_theorem.2.2.1 c8pcpFile c8pcpState "BUFFL".data [c8pcpRec] c8pcpRec 29
      "BUFFL".data 1941 2 1 (by decide) (by decide) (by decide) (by decide) (by decide)
      (by decide) (by decide) (by decide) (by decide) (by decide),
   C8_theorem.2.2.2.1 c8recs [(dkey 2001 2 28 0, some 30, some 4)]
      C8_theorem.2.2.2.2 (dkey 2001 2 28 0, some 30, some 4) (by decide)⟩

/-! ### C5: sentinel missing values -/

theorem mapE_getD {α β : Type} {f : α → Except Unit β} :
    ∀ {l : List α} {res : List β}, mapE f l = .ok res → ∀ {i : Nat} (d1 : α) (d2 : β),
      i < l.length → f (l.getD i d1) = .ok (res.getD i d2) := by
  intro l
  induction l with
  | nil =>
    intro res h i d1 d2 hi
    simp at hi
  | cons x xs ih =>
    intro res h i d1 d2 hi
    rw [mapE] at h
    cases hfx : f x with
    | error e => rw [hfx] at h; cases h
    | ok y =>
      rw [hfx] at h
      cases hrest : mapE f xs with
      | error e => rw [hrest] at h; cases h
      | ok ys =>
        rw [hrest] at h
        cases h
        cases i with
        | zero => simpa using hfx
        | succ i2 =>
          simp only [List.getD_cons_succ]
          exact ih hrest d1 d2 (by simpa using hi)

theorem cellQ_na {na : List (List Char)} {tok : List Char} (h : tok ∈ na) :
    cellQ? na tok = .ok none := by
  rw [cellQ?, if_pos h]

/-- C5: the declared missing-value sentinels.  For `pcp` a slot whose
field is the token `-9999.00` parses to NaN, so the melt/`dropna`
pipeline emits no row for it; a timestamp appears in the reshaped rows
exactly when some populated (non-NaN) slot maps to it, and each such
slot contributes exactly one row.  For `wind` a `-9` token parses to
NaN and contributes nothing, but the pivoted output has at most one row
per timestamp rather than one per slot: `pivot_table`'s default mean
aggregation collapses a `(date, var)` group into a single cell holding
the arithmetic mean of its populated values (NaN when the group has
none), and every surviving row retains at least one non-missing cell.
The original per-slot claim fails for wind as soon as two populated
slots share a `(date, var)` key (see the counterexample). -/
theorem C5_theorem :
    (∀ (fields : List (List Char)) (rec : RecWsYM) (j : Nat),
      recWsYM? fields = .ok rec → j < 31 →
      fields.getD (j + 3) [] = ('-' :: "9999.00".data) →
      rec.days.getD j none = none) ∧
    (∀ (recs : List RecWsYM) (rows : List (Nat × ℚ)),
      datesYM? (meltWsYM recs) = .ok rows → ∀ k : Nat,
      ((∃ p ∈ sortByKey rows, p.1 = k) ↔
        ∃ r ∈ recs, ∃ j, j < 31 ∧ (∃ w, r.ws = some w) ∧
          ∃ y m v, r.year = some y ∧ r.month = some m ∧
            r.days.getD j none = some v ∧ toDatetimeYMd? y m (j + 1) = some k)) ∧
    (∀ (recs : List RecWsYM) (rows : List (Nat × ℚ)),
      datesYM? (meltWsYM recs) = .ok rows → ∀ k : Nat,
      (sortByKey rows).countP (fun p => p.1 == k) =
        (meltWsYM recs).countP
          (fun row => toDatetimeYMd? row.1 row.2.1 row.2.2.1 == some k)) ∧
    (∀ (toks : List (List Char)) (rec : RecWind) (h : Nat),
      recWind? toks = .ok rec → h < 24 →
      toks.getD (h + 5) [] = ['-', '9'] →
      rec.hours.getD h none = none) ∧
    (∀ (pairs : List (Option Nat × Option ℚ × Option ℚ)) (d : Nat) (v : ℚ)
        (xs : List ℚ),
      pairs.filterMap (fun p =>
          match p with
          | (some d2, some v2, some x) => if d2 = d ∧ v2 = v then some x else none
          | _ => none) = xs →
      aggCell pairs d v = if xs.isEmpty then none else some (xs.sum / xs.length)) ∧
    (∀ (pairs : List (Option Nat × Option ℚ × Option ℚ))
        (rows : List (Nat × Option ℚ × Option ℚ)),
      windPivot pairs = .ok rows →
      ∀ k : Nat, rows.countP (fun row => row.1 == k) ≤ 1) ∧
    (∀ (pairs : List (Option Nat × Option ℚ × Option ℚ))
        (rows : List (Nat × Option ℚ × Option ℚ)),
      windPivot pairs = .ok rows →
      ∀ p ∈ rows, p.2.1.isSome = true ∨ p.2.2.isSome = true) := by
  refine ⟨?_, ?_, ?_, ?_, ?_, ?_, ?_⟩
  · intro fields rec j hok hj hsent
    rw [recWsYM?] at hok
    split at hok
    · cases hok
    case isFalse hlen =>
      have hjlt : j + 3 < fields.length := by
        by_contra hge
        push_neg at hge
        rw [List.getD_eq_default _ _ hge] at hsent
        cases hsent
      have hpad : (fields ++ List.replicate (34 - fields.length) []).getD (j + 3) [] =
          ('-' :: "9999.00".data) := by
        rw [List.getD_append _ _ _ _ hjlt]
        exact hsent
      split at hok
      case h_2 heq => cases hok
      case h_1 w rest heq =>
        simp only [bind, Except.bind] at hok
        cases hcells : mapE (cellQ? [('-' :: "9999.00".data)]) rest with
        | error e => rw [hcells] at hok; cases hok
        | ok cells =>
          rw [hcells] at hok
          have hrestlen : rest.length = 33 := by
            have h34 : (fields ++ List.replicate (34 - fields.length) []).length = 34 := by
              simp
              omega
            rw [heq] at h34
            simpa using h34
          have hrestD : rest.getD (j + 2) [] = ('-' :: "9999.00".data) := by
            have := hpad
            rw [heq, List.getD_cons_succ] at this
            exact this
          have hcellD := mapE_getD hcells ([] : List Char) (none : Option ℚ)
            (show j + 2 < rest.length by omega)
          rw [hrestD, cellQ_na (List.mem_singleton.mpr rfl)] at hcellD
          cases cells with
          | nil => cases hok
          | cons y cells2 =>
            cases cells2 with
            | nil => cases hok
            | cons m ds =>
              cases hok
              show ds.getD j none = none
              have : (y :: m :: ds).getD (j + 2) none = none := by
                injection hcellD.symm
              simpa using this
  · intro recs rows hok k
    rw [exists_mem_sortByKey]
    have hiff := forall2_exists_iff (p := fun p : Nat × ℚ => p.1 = k)
      (q := fun row : ℚ × ℚ × Nat × ℚ => toDatetimeYMd? row.1 row.2.1 row.2.2.1 = some k)
      (mapE_ok_forall2 hok) ?_
    · rw [hiff]
      constructor
      · rintro ⟨row, hrow, hdt⟩
        obtain ⟨r, hr, j, hj, hw, hy, hm, hday, hv⟩ := mem_meltWsYM.mp hrow
        exact ⟨r, hr, j, hj, hw, row.1, row.2.1, row.2.2.2, hy, hm, hv, hday ▸ hdt⟩
      · rintro ⟨r, hr, j, hj, hw, y, m, v, hy, hm, hv, hdt⟩
        refine ⟨(y, m, j + 1, v), mem_meltWsYM.mpr ⟨r, hr, j, hj, hw, hy, hm, rfl, hv⟩, hdt⟩
    · intro row p hfp
      revert hfp
      cases hdt : toDatetimeYMd? row.1 row.2.1 row.2.2.1 with
      | none => intro hfp; cases hfp
      | some k2 =>
        intro hfp
        cases hfp
        show (k2 = k) ↔ (toDatetimeYMd? row.1 row.2.1 row.2.2.1 = some k)
        rw [hdt, Option.some_inj]
  · intro recs rows hok k
    rw [countP_sortByKey]
    apply forall2_countP (mapE_ok_forall2 hok)
    intro row p hfp
    revert hfp
    cases hdt : toDatetimeYMd? row.1 row.2.1 row.2.2.1 with
    | none => intro hfp; cases hfp
    | some k2 =>
      intro hfp
      cases hfp
      show (k2 == k) = (some k2 == some k)
      rfl
  · intro toks rec h hok hh hsent
    rw [recWind?] at hok
    split at hok
    · cases hok
    case isFalse hlen =>
      have hhlt : h + 5 < toks.length := by
        by_contra hge
        push_neg at hge
        rw [List.getD_eq_default _ _ hge] at hsent
        cases hsent
      simp only [bind, Except.bind] at hok
      cases hy : cellQ? na9 ((toks ++ List.replicate (29 - toks.length) []).getD 0 []) with
      | error e => rw [hy] at hok; cases hok
      | ok y =>
        rw [hy] at hok
        cases hm : cellQ? na9 ((toks ++ List.replicate (29 - toks.length) []).getD 1 []) with
        | error e => rw [hm] at hok; cases hok
        | ok m =>
          rw [hm] at hok
          cases hd : cellQ? na9 ((toks ++ List.replicate (29 - toks.length) []).getD 2 []) with
          | error e => rw [hd] at hok; cases hok
          | ok d =>
            rw [hd] at hok
            cases hv : cellQ? na9 ((toks ++ List.replicate (29 - toks.length) []).getD 4 []) with
            | error e => rw [hv] at hok; cases hok
            | ok v =>
              rw [hv] at hok
              cases hhs : mapE (cellQ? na9)
                  (((toks ++ List.replicate (29 - toks.length) []).drop 5).take 24) with
              | error e => rw [hhs] at hok; cases hok
              | ok hs =>
                rw [hhs] at hok
                cases hok
                show hs.getD h none = none
                have hlen2 : (((toks ++ List.replicate (29 - toks.length) []).drop 5).take 24).length = 24 := by
                  simp
                  omega
                have hslot : (((toks ++ List.replicate (29 - toks.length) []).drop 5).take 24).getD h [] =
                    ['-', '9'] := by
                  rw [List.getD_eq_getElem?_getD, List.getElem?_take, if_pos hh,
                    List.getElem?_drop, show 5 + h = h + 5 from by omega,
                    List.getElem?_append,
                    if_pos (show h + 5 < toks.length from by omega),
                    ← List.getD_eq_getElem?_getD]
                  exact hsent
                have hhlen :
                    h < (List.take 24 (List.drop 5 (toks ++ List.replicate (29 - toks.length) []))).length := by
                  omega
                have hcell := mapE_getD hhs ([] : List Char) (none : Option ℚ) hhlen
                rw [hslot, cellQ_na (show (['-', '9'] : List Char) ∈ na9 from by decide)] at hcell
                injection hcell.symm
  · intro pairs d v xs hxs
    rw [aggCell]
    simp only [hxs]
    by_cases he : xs.isEmpty
    · rw [if_pos he, if_pos he]
    · rw [if_neg he, if_neg he, qmean_eq_mean]
  · intro pairs rows hp k
    exact pairwise_countP_le_one (windPivot_sorted hp) k
  · intro pairs rows hp p hpmem
    rw [windPivot] at hp
    split at hp
    case h_2 => cases hp
    case h_1 c0 c1 hcols =>
      cases hp
      obtain ⟨d, hd, rfl⟩ := List.mem_map.mp hpmem
      have hd0 := List.mem_filter.mp hd
      have hany := hd0.2
      rw [hcols] at hany
      rcases List.any_eq_true.mp hany with ⟨vv, hvv, hsome⟩
      rcases List.mem_cons.mp hvv with rfl | hvv2
      · left
        simpa using hsome
      · rcases List.mem_singleton.mp hvv2 with rfl
        right
        simpa using hsome

def c5fields : List (List Char) :=
  ["BUFFL".data, "1941".data, "1".data, ('-' :: "9999.00".data), "2.00".data]

def c5rec : RecWsYM :=
  ⟨some "BUFFL".data, some 1941, some 1, none :: some 2 :: List.replicate 29 none⟩

def c5wtoks : List (List Char) :=
  ["2001".data, "2".data, "28".data, "S".data, "1".data, ['-', '9'], "5.0".data]

def c5wrec : RecWind :=
  ⟨some 2001, some 2, some 28, "S".data, some 1, none :: some 5 :: List.replicate 22 none⟩

def c5windRecs : List RecWind :=
  [⟨some 2001, some 2, some 28, ['S'], some 1, some 3 :: List.replicate 23 none⟩,
   ⟨some 2001, some 2, some 28, ['S'], some 2, some 4 :: List.replicate 23 none⟩]

set_option maxRecDepth 10000 in
/-- C5 witness: each component applied at small concrete data — a pcp
record whose day-1 field is the `-9999.00` sentinel (no day-1 row, one
day-2 row), a wind record whose hour-0 token is `-9`, and concrete
pivot groups. -/
theorem C5_witness :
    c5rec.days.getD 0 none = none ∧
    (∃ p ∈ sortByKey [(dkey 1941 1 2 0, (2 : ℚ))], p.1 = dkey 1941 1 2 0) ∧
    ((sortByKey [(dkey 1941 1 2 0, (2 : ℚ))]).countP
        (fun p => p.1 == dkey 1941 1 2 0) =
      (meltWsYM [c5rec]).countP
        (fun row => toDatetimeYMd? row.1 row.2.1 row.2.2.1 == some (dkey 1941 1 2 0))) ∧
    c5wrec.hours.getD 0 none = none ∧
    aggCell [(some 10, some 1, some 7), (some 10, some 1, some 9)] 10 1 = some 8 ∧
    (([(dkey 2001 2 28 0, some (30 : ℚ), some (4 : ℚ))] :
        List (Nat × Option ℚ × Option ℚ)).countP
      (fun row => row.1 == dkey 2001 2 28 0) ≤ 1) ∧
    ((some (30 : ℚ)).isSome = true ∨ (some (4 : ℚ)).isSome = true) :=
  ⟨C5_theorem.1 c5fields c5rec 0 (by decide) (by decide) (by decide),
   (C5_theorem.2.1 [c5rec] [(dkey 1941 1 2 0, 2)] (by decide) (dkey 1941 1 2 0)).mpr
     ⟨c5rec, by decide, 1, by decide, ⟨"BUFFL".data, rfl⟩, 1941, 1, 2, rfl, rfl,
       by decide, by decide⟩,
   C5_theorem.2.2.1 [c5rec] [(dkey 1941 1 2 0, 2)] (by decide) (dkey 1941 1 2 0),
   C5_theorem.2.2.2.1 c5wtoks c5wrec 0 (by decide) (by decide) (by decide),
   (C5_theorem.2.2.2.2.1 [(some 10, some 1, some 7), (some 10, some 1, some 9)] 10 1
     [7, 9] (by decide)).trans (by norm_num),
   C5_theorem.2.2.2.2.2.1 (windPairs c5windRecs) [(dkey 2001 2 28 0, some 30, some 4)]
     (by decide) (dkey 2001 2 28 0),
   C5_theorem.2.2.2.2.2.2 (windPairs c5windRecs) [(dkey 2001 2 28 0, some 30, some 4)]
     (by decide) (dkey 2001 2 28 0, some 30, some 4) (by decide)⟩

/-- Three wind records on the same day: two sites observe the `dir`
variable (`var = 1`) at hour 0 with values 1 and 2, one observes `spd`
(`var = 2`) with value 4. -/
def c5dup : List RecWind :=
  [⟨some 2001, some 2, some 28, ['S'], some 1, some 1 :: List.replicate 23 none⟩,
   ⟨some 2001, some 2, some 28, ['T'], some 1, some 2 :: List.replicate 23 none⟩,
   ⟨some 2001, some 2, some 28, ['S'], some 2, some 4 :: List.replicate 23 none⟩]

set_option maxRecDepth 10000 in
/-- C5 (counterexample to the per-slot claim for wind): two populated
slots share the `(Feb 28, dir)` key, yet the pivot emits a single row
whose `dir` cell is their mean `1.5` scaled by 10 — not one row per
slot. -/
theorem C5_counterexample :
    (windPairs c5dup).countP (fun p =>
      (p.1 == some (dkey 2001 2 28 0)) && (p.2.1 == some (1 : ℚ)) && p.2.2.isSome) = 2 ∧
    windPivot (windPairs c5dup) =
      .ok [(dkey 2001 2 28 0, some (15 : ℚ), some (4 : ℚ))] := by decide

/-! ### The gensal/tide round trip -/

/-- Pandas scalar access out of range raises, so the default entry is
never read on the success path; any fixed filler works. -/
def dtFill : DT × ℚ := (⟨0, 0, 0, 0⟩, 0)

theorem daysInMonth_le (y m : Nat) : daysInMonth y m ≤ 31 := by
  rw [daysInMonth]
  split
  · split <;> omega
  · split <;> omega

theorem renderInt_natCast (n : Nat) : renderInt (n : Int) = renderNat n := by
  rw [renderInt, if_neg (by omega : ¬ ((n : Int) < 0)), Int.natAbs_ofNat]
  rfl

theorem renderF2_len_le {z : Int} (h1 : -1000 < z) (h2 : z < 10000) :
    (renderF2 z).length ≤ 5 := by
  rw [renderF2, List.length_append, List.length_append, List.length_cons,
    pad2_len (Nat.mod_lt _ (by norm_num))]
  by_cases hz : z < 0
  · rw [if_pos hz]
    have hd : z.natAbs / 100 < 10 ^ 1 := by omega
    have := renderNat_len_le (le_refl 1) hd
    simp only [List.length_cons, List.length_nil]
    omega
  · rw [if_neg hz]
    have hd : z.natAbs / 100 < 10 ^ 2 := by omega
    have := renderNat_len_le (by norm_num) hd
    simp only [List.length_nil]
    omega

theorem parseQ_renderNat (n : Nat) : parseQ? (renderNat n) = some ((n : ℚ)) := by
  rw [parseQ?,
    pyStrip_of_nonws (fun c hc => digit_not_ws (renderNat_all_digit n c hc))]
  cases hr : renderNat n with
  | nil => exact absurd hr (renderNat_ne_nil _)
  | cons c cs =>
    have hdig : isDigitCh c = true := by
      apply renderNat_all_digit n
      rw [hr]
      exact List.mem_cons_self _ _
    rw [parseSigned?, if_neg (digit_ne_char hdig (by decide)),
      if_neg (digit_ne_char hdig (by decide)), parseUQ?,
      breakAt_not_mem (by rw [← hr]; exact renderNat_no_dot n)]
    rw [← hr]
    show Option.map (fun q : ℚ => q)
      ((parseNat? (renderNat n)).bind (fun k : Nat => some ((k : ℚ)))) = some ((n : ℚ))
    rw [parseNat_renderNat]
    rfl

theorem cellQ_renderNat (n : Nat) : cellQ? [] (renderNat n) = .ok (some ((n : ℚ))) := by
  rw [cellQ?, if_neg (List.not_mem_nil _),
    pyStrip_of_nonws (fun c hc => digit_not_ws (renderNat_all_digit n c hc))]
  rw [if_neg (by simp [List.isEmpty_iff, renderNat_ne_nil n])]
  show (match parseQ? (renderNat n) with
    | some q => Except.ok (some q)
    | none => Except.error ()) = _
  rw [parseQ_renderNat]

theorem cellQ_renderF2 (z : Int) : cellQ? [] (renderF2 z) = .ok (some (ofHundredths z)) := by
  rw [cellQ?, if_neg (List.not_mem_nil _), pyStrip_of_nonws (renderF2_all_nonws z)]
  rw [if_neg (by simp [List.isEmpty_iff, renderF2_ne_nil z])]
  show (match parseQ? (renderF2 z) with
    | some q => Except.ok (some q)
    | none => Except.error ()) = _
  rw [parseQ_renderF2]

theorem cellNat_natCast (n : Nat) : cellNat? ((n : ℚ)) = some n := by
  rw [cellNat?, if_pos (by simp)]
  simp

theorem toDatetimeYMDH_natCast {y m d h : Nat} (hv : validPd y m d = true) (hh : h < 24) :
    toDatetimeYMDH? ((y : ℚ)) ((m : ℚ)) ((d : ℚ)) h = some (dkey y m d h) := by
  rw [toDatetimeYMDH?]
  show ((cellNat? ((y : ℚ))).bind fun yn => _) = _
  rw [cellNat_natCast]
  show ((cellNat? ((m : ℚ))).bind fun mn => _) = _
  rw [cellNat_natCast]
  show ((cellNat? ((d : ℚ))).bind fun dn => _) = _
  rw [cellNat_natCast]
  show (if validPd y m d && decide (h < 24) then _ else _) = _
  rw [if_pos (by rw [hv]; simpa using hh)]

theorem bindE_ok {α β : Type} (a : α) (f : α → Except Unit β) :
    (Except.ok a : Except Unit α).bind f = f a := rfl

theorem mapE_map {α β γ : Type} (f : β → Except Unit γ) (g : α → β) :
    ∀ l : List α, mapE f (l.map g) = mapE (fun a => f (g a)) l := by
  intro l
  induction l with
  | nil => rfl
  | cons x xs ih =>
    rw [List.map_cons, mapE, mapE, ih]

theorem flatMapCongr {α β : Type} {f h : α → List β} :
    ∀ {l : List α}, (∀ x ∈ l, f x = h x) → l.flatMap f = l.flatMap h := by
  intro l
  induction l with
  | nil => intro _; rfl
  | cons x xs ih =>
    intro hfh
    rw [List.flatMap_cons, List.flatMap_cons, hfh x (List.mem_cons_self _ _),
      ih (fun z hz => hfh z (List.mem_cons_of_mem x hz))]

theorem mapFlatMap {α β γ : Type} (g : β → γ) (f : α → List β) :
    ∀ l : List α, (l.flatMap f).map g = l.flatMap (fun a => (f a).map g) := by
  intro l
  induction l with
  | nil => rfl
  | cons x xs ih =>
    rw [List.flatMap_cons, List.flatMap_cons, List.map_append, ih]

theorem flatMapAppendPerm {α β : Type} (l : List α) (A B : α → List β) :
    List.Perm (l.flatMap (fun x => A x ++ B x)) (l.flatMap A ++ l.flatMap B) := by
  induction l with
  | nil => simp
  | cons x xs ih =>
    simp only [List.flatMap_cons]
    refine ((ih.append_left (A x ++ B x)).trans ?_)
    simp only [List.append_assoc]
    refine List.Perm.append_left (A x) ?_
    rw [← List.append_assoc, ← List.append_assoc]
    exact List.Perm.append_right _ List.perm_append_comm

theorem flatMapSingleton {α β : Type} (l : List α) (f : α → β) :
    l.flatMap (fun x => [f x]) = l.map f := by
  induction l with
  | nil => rfl
  | cons x xs ih => rw [List.flatMap_cons, List.map_cons, ih]; rfl

theorem transposePerm {α : Type} (g : Nat → Nat → α) (M : Nat) :
    ∀ N : Nat, List.Perm
      ((List.range M).flatMap (fun k => (List.range N).map (fun j => g j k)))
      ((List.range N).flatMap (fun j => (List.range M).map (fun k => g j k))) := by
  intro N
  induction N with
  | zero =>
    simp [List.flatMap]
  | succ n ih =>
    have hL := flatMapCongr (l := List.range M)
      (f := fun k => (List.range (n + 1)).map (fun j => g j k))
      (h := fun k => (List.range n).map (fun j => g j k) ++ [g n k])
      (fun k _ => by dsimp only; rw [List.range_succ, List.map_append]; rfl)
    rw [hL, List.range_succ, List.flatMap_append]
    refine (flatMapAppendPerm _ _ _).trans ?_
    rw [flatMapSingleton]
    refine List.Perm.append ih ?_
    simp only [List.flatMap_cons, List.flatMap_nil, List.append_nil]
    exact List.Perm.refl _

theorem rangeGetD {α : Type} : ∀ (n : Nat) (l : List α) (d : α), n ≤ l.length →
    (List.range n).map (fun k => l.getD k d) = l.take n := by
  intro n
  induction n with
  | zero =>
    intro l d _
    simp
  | succ m ih =>
    intro l d h
    cases l with
    | nil => simp at h
    | cons a as =>
      rw [List.range_succ_eq_map, List.map_cons, List.map_map]
      have hc : ((fun k => (a :: as).getD k d) ∘ Nat.succ) = (fun k => as.getD k d) := by
        funext k
        rfl
      rw [hc, ih as d (by simpa using h)]
      rfl

theorem getDMapRange {α : Type} (F : Nat → α) (d : α) {k n : Nat} (h : k < n) :
    ((List.range n).map F).getD k d = F k := by
  rw [List.getD_eq_getElem?_getD, List.getElem?_map, List.getElem?_range h]
  rfl

theorem getDDrop {α : Type} (l : List α) (n m : Nat) (d : α) :
    (l.drop n).getD m d = l.getD (n + m) d := by
  rw [List.getD_eq_getElem?_getD, List.getD_eq_getElem?_getD, List.getElem?_drop]

theorem chunks12 {α β : Type} (f : α → β) (d : α) :
    ∀ (N : Nat) (l : List α), l.length = 12 * N →
      l.map f = (List.range N).flatMap
        (fun j => (List.range 12).map (fun k => f (l.getD (12 * j + k) d))) := by
  intro N
  induction N with
  | zero =>
    intro l h
    have hl : l = [] := List.length_eq_zero.mp (by omega)
    subst hl
    rfl
  | succ n ih =>
    intro l h
    have h12 : 12 ≤ l.length := by omega
    rw [List.range_succ_eq_map, List.flatMap_cons, List.flatMap_map]
    have hhead : (List.range 12).map (fun k => f (l.getD (12 * 0 + k) d))
        = (l.take 12).map f := by
      rw [← rangeGetD 12 l d h12, List.map_map]
      refine List.map_congr_left (fun k _ => ?_)
      show f (l.getD (12 * 0 + k) d) = f (l.getD k d)
      rw [Nat.mul_zero, Nat.zero_add]
    have htail : ((List.range n).flatMap
          fun a => (List.range 12).map (fun k => f (l.getD (12 * a.succ + k) d)))
        = (l.drop 12).map f := by
      rw [ih (l.drop 12) (by rw [List.length_drop]; omega)]
      refine (flatMapCongr (fun j _ => ?_)).symm
      refine List.map_congr_left (fun k _ => ?_)
      show f ((l.drop 12).getD (12 * j + k) d) = f (l.getD (12 * j.succ + k) d)
      rw [getDDrop]
      congr 2
      omega
    rw [hhead, htail, ← List.map_append, List.take_append_drop]

theorem wsBlocks_cons (k : Nat) (c : List Char) (bs : List (Nat × List Char))
    (t : List Char) :
    wsBlocks ((k, c) :: bs) t = List.replicate (k + 1) ' ' ++ c ++ wsBlocks bs t := rfl

theorem wsBlocks_nil (t : List Char) : wsBlocks [] t = t := rfl

theorem wsBlocks_append (xs ys : List (Nat × List Char)) (t : List Char) :
    wsBlocks (xs ++ ys) t = wsBlocks xs (wsBlocks ys t) := by
  rw [wsBlocks, wsBlocks, wsBlocks, List.foldr_append]

/-- The blocks of the twelve `%6.2f` value fields. -/
def valBlocks (vs : List ℚ) : List (Nat × List Char) :=
  vs.map (fun v => (5 - (renderF2 (round2 v)).length, renderF2 (round2 v)))

theorem flatten_pad6 (vs : List ℚ) (rest : List Char)
    (h : ∀ v ∈ vs, (renderF2 (round2 v)).length ≤ 5) :
    (vs.map (fun v => padLeft 6 (renderF2 (round2 v)))).flatten ++ rest
      = wsBlocks (valBlocks vs) rest := by
  induction vs with
  | nil => rfl
  | cons v vs ih =>
    rw [List.map_cons, List.flatten_cons, List.append_assoc,
      ih (fun x hx => h x (List.mem_cons_of_mem v hx))]
    show _ = wsBlocks ((5 - (renderF2 (round2 v)).length, renderF2 (round2 v)) ::
      valBlocks vs) rest
    rw [wsBlocks_cons, padLeft]
    have h6 : 6 - (renderF2 (round2 v)).length
        = (5 - (renderF2 (round2 v)).length) + 1 := by
      have := h v (List.mem_cons_self _ _)
      omega
    rw [h6, List.append_assoc]

/-- The full block decomposition of one `gensal` output line. -/
def gensalBlocks (t : DT) (vs : List ℚ) (locD : List Char) : List (Nat × List Char) :=
  (2 - (renderNat t.month).length, renderNat t.month) ::
    (2 - (renderNat t.day).length, renderNat t.day) ::
    (valBlocks vs ++ [(5 - (renderNat t.year).length, renderNat t.year),
      (8 - locD.length, locD)])

theorem gensalLine_eq (t : DT) (vs : List ℚ) (loc : String)
    (hm : (renderNat t.month).length ≤ 2) (hd : (renderNat t.day).length ≤ 2)
    (hy : (renderNat t.year).length ≤ 5)
    (hv : ∀ v ∈ vs, (renderF2 (round2 v)).length ≤ 5) :
    write.gensalLine t vs loc = wsBlocks (gensalBlocks t vs loc.data) ['\n'] := by
  rw [gensalBlocks, wsBlocks_cons, wsBlocks_cons, wsBlocks_append,
    ← flatten_pad6 vs _ hv, wsBlocks_cons, wsBlocks_cons]
  rw [write.gensalLine, renderInt_natCast, renderInt_natCast, renderInt_natCast,
    padLeft, padLeft, padLeft, padLeft]
  have e1 : 3 - (renderNat t.month).length = (2 - (renderNat t.month).length) + 1 := by
    omega
  have e2 : 3 - (renderNat t.day).length = (2 - (renderNat t.day).length) + 1 := by
    omega
  have e3 : 6 - (renderNat t.year).length = (5 - (renderNat t.year).length) + 1 := by
    omega
  rw [e1, e2, e3]
  simp only [wsBlocks_nil, List.replicate_succ, List.replicate_zero, List.append_assoc,
    List.cons_append, List.nil_append]

/-- The block decomposition of one `tide` output line: the left-justified
label leaves its padding as trailing whitespace. -/
theorem tideLine_eq (t : DT) (vs : List ℚ) (col : String)
    (hm : (renderNat t.month).length ≤ 2) (hd : (renderNat t.day).length ≤ 2)
    (hy : (renderNat t.year).length ≤ 5)
    (hv : ∀ v ∈ vs, (renderF2 (round2 v)).length ≤ 5) :
    write.tideLine t vs col =
      wsBlocks ((2 - (renderNat t.month).length, renderNat t.month) ::
        (2 - (renderNat t.day).length, renderNat t.day) ::
        (valBlocks vs ++ [(5 - (renderNat t.year).length, renderNat t.year),
          (0, col.data)]))
        (List.replicate (8 - col.data.length) ' ' ++ ['\n']) := by
  rw [wsBlocks_cons, wsBlocks_cons, wsBlocks_append, ← flatten_pad6 vs _ hv,
    wsBlocks_cons, wsBlocks_cons]
  rw [write.tideLine, renderInt_natCast, renderInt_natCast, renderInt_natCast,
    padLeft, padLeft, padLeft, padRight]
  have e1 : 3 - (renderNat t.month).length = (2 - (renderNat t.month).length) + 1 := by
    omega
  have e2 : 3 - (renderNat t.day).length = (2 - (renderNat t.day).length) + 1 := by
    omega
  have e3 : 6 - (renderNat t.year).length = (5 - (renderNat t.year).length) + 1 := by
    omega
  rw [e1, e2, e3]
  simp only [wsBlocks_nil, List.replicate_succ, List.replicate_zero, List.append_assoc,
    List.cons_append, List.nil_append]

theorem rowTokens_gensalLine (t : DT) (vs : List ℚ) (loc : String)
    (hm : (renderNat t.month).length ≤ 2) (hd : (renderNat t.day).length ≤ 2)
    (hy : (renderNat t.year).length ≤ 5)
    (hv : ∀ v ∈ vs, (renderF2 (round2 v)).length ≤ 5)
    (hloc : loc.data ≠ []) (hlocw : ∀ c ∈ loc.data, isWsChar c = false) :
    rowTokens (String.mk (write.gensalLine t vs loc)) =
      renderNat t.month :: renderNat t.day ::
        (vs.map (fun v => renderF2 (round2 v)) ++ [renderNat t.year, loc.data]) := by
  show splitWs (write.gensalLine t vs loc) = _
  rw [gensalLine_eq t vs loc hm hd hy hv]
  rw [splitWs_wsBlocks _ ?_ ?_]
  · rw [gensalBlocks, List.map_cons, List.map_cons, List.map_append, valBlocks,
      List.map_map]
    rfl
  · intro b hb
    rw [gensalBlocks] at hb
    rcases List.mem_cons.mp hb with rfl | hb
    · exact ⟨renderNat_ne_nil _, fun c hc => digit_not_ws (renderNat_all_digit _ c hc)⟩
    rcases List.mem_cons.mp hb with rfl | hb
    · exact ⟨renderNat_ne_nil _, fun c hc => digit_not_ws (renderNat_all_digit _ c hc)⟩
    rcases List.mem_append.mp hb with hb | hb
    · rw [valBlocks] at hb
      obtain ⟨v, _, rfl⟩ := List.mem_map.mp hb
      exact ⟨renderF2_ne_nil _, renderF2_all_nonws _⟩
    rcases List.mem_cons.mp hb with rfl | hb
    · exact ⟨renderNat_ne_nil _, fun c hc => digit_not_ws (renderNat_all_digit _ c hc)⟩
    rcases List.mem_cons.mp hb with rfl | hb
    · exact ⟨hloc, hlocw⟩
    cases hb
  · intro c hc
    rcases List.mem_singleton.mp hc with rfl
    decide

theorem rowTokens_tideLine (t : DT) (vs : List ℚ) (col : String)
    (hm : (renderNat t.month).length ≤ 2) (hd : (renderNat t.day).length ≤ 2)
    (hy : (renderNat t.year).length ≤ 5)
    (hv : ∀ v ∈ vs, (renderF2 (round2 v)).length ≤ 5)
    (hcol : col.data ≠ []) (hcolw : ∀ c ∈ col.data, isWsChar c = false) :
    rowTokens (String.mk (write.tideLine t vs col)) =
      renderNat t.month :: renderNat t.day ::
        (vs.map (fun v => renderF2 (round2 v)) ++ [renderNat t.year, col.data]) := by
  show splitWs (write.tideLine t vs col) = _
  rw [tideLine_eq t vs col hm hd hy hv]
  rw [splitWs_wsBlocks _ ?_ ?_]
  · rw [List.map_cons, List.map_cons, List.map_append, valBlocks, List.map_map]
    rfl
  · intro b hb
    rcases List.mem_cons.mp hb with rfl | hb
    · exact ⟨renderNat_ne_nil _, fun c hc => digit_not_ws (renderNat_all_digit _ c hc)⟩
    rcases List.mem_cons.mp hb with rfl | hb
    · exact ⟨renderNat_ne_nil _, fun c hc => digit_not_ws (renderNat_all_digit _ c hc)⟩
    rcases List.mem_append.mp hb with hb | hb
    · rw [valBlocks] at hb
      obtain ⟨v, _, rfl⟩ := List.mem_map.mp hb
      exact ⟨renderF2_ne_nil _, renderF2_all_nonws _⟩
    rcases List.mem_cons.mp hb with rfl | hb
    · exact ⟨renderNat_ne_nil _, fun c hc => digit_not_ws (renderNat_all_digit _ c hc)⟩
    rcases List.mem_cons.mp hb with rfl | hb
    · exact ⟨hcol, hcolw⟩
    cases hb
  · intro c hc
    rcases List.mem_append.mp hc with hc | hc
    · rw [List.eq_of_mem_replicate hc]
      decide
    · rcases List.mem_singleton.mp hc with rfl
      decide

theorem getDMem {α : Type} {l : List α} {n : Nat} (h : n < l.length) (d : α) :
    l.getD n d ∈ l := by
  rw [List.getD_eq_getElem?_getD, List.getElem?_eq_getElem h]
  exact List.getElem_mem h

theorem recGensal_explicit {vm vd vy : Option ℚ} {hs : List (Option ℚ)}
    (m d y locT : List Char) (cores : List (List Char))
    (hlen : cores.length = 12)
    (hm : cellQ? [] m = .ok vm) (hd : cellQ? [] d = .ok vd)
    (hy : cellQ? [] y = .ok vy)
    (hcs : mapE (cellQ? []) cores = .ok hs) :
    recGensal? (m :: d :: (cores ++ [y, locT])) = .ok ⟨vm, vd, hs, vy⟩ := by
  have h16 : (m :: d :: (cores ++ [y, locT])).length = 16 := by
    simp [hlen]
  have htake : (cores ++ [y, locT]).take 12 = cores := List.take_left' hlen
  have hgd : (cores ++ [y, locT]).getD 12 [] = y := by
    rw [List.getD_eq_getElem?_getD, List.getElem?_append_right (by omega), hlen]
    rfl
  simp only [recGensal?, h16, Nat.sub_self, List.replicate_zero, List.append_nil,
    gt_iff_lt, lt_self_iff_false, if_false, List.getD_cons_zero, List.getD_cons_succ,
    List.drop_succ_cons, List.drop_zero, htake, hgd, hm, hd, hy, hcs]
  rfl

/-- The scalar data of the group starting at row `12 * j`, as the reader
reconstructs it from the written line. -/
def recAt (rows : List (DT × ℚ)) (j : Nat) : RecGensal :=
  ⟨some (((rows.getD (12 * j) dtFill).1.month : ℚ)),
   some (((rows.getD (12 * j) dtFill).1.day : ℚ)),
   (List.range 12).map
     (fun k => some (ofHundredths (round2 ((rows.getD (12 * j + k) dtFill).2)))),
   some (((rows.getD (12 * j) dtFill).1.year : ℚ))⟩

/-- The melted row of group `j`, slot `k`. -/
def c4G (rows : List (DT × ℚ)) (j k : Nat) : Nat × Option ℚ :=
  (dkey (rows.getD (12 * j) dtFill).1.year (rows.getD (12 * j) dtFill).1.month
    (rows.getD (12 * j) dtFill).1.day (2 * k),
   some (ofHundredths (round2 ((rows.getD (12 * j + k) dtFill).2))))

/-- The total companion of the melt conversion on rows whose date parts
are present and valid. -/
def gRow (row : Option ℚ × Option ℚ × Option ℚ × Nat × Option ℚ) : Nat × Option ℚ :=
  ((toDatetimeYMDH? (row.1.getD 0) (row.2.1.getD 0) (row.2.2.1.getD 0) row.2.2.2.1).getD 0,
   row.2.2.2.2)

def gensalLines (rows : List (DT × ℚ)) (loc : String) (N : Nat) : List String :=
  (List.range N).map (fun j => String.mk (write.gensalLine (rows.getD (12 * j) dtFill).1
    ((List.range 12).map (fun k => (rows.getD (12 * j + k) dtFill).2)) loc))

def tideLines (col : String) (rows : List (DT × ℚ)) (N : Nat) : List String :=
  (List.range N).map (fun j => String.mk (write.tideLine (rows.getD (12 * j) dtFill).1
    ((List.range 12).map (fun k => (rows.getD (12 * j + k) dtFill).2)) col))

theorem group12_eq {rows : List (DT × ℚ)} {i : Nat} (h : i + 12 ≤ rows.length) :
    write.group12? rows i = some ((rows.getD i dtFill).1,
      (List.range 12).map (fun k => (rows.getD (i + k) dtFill).2)) := by
  have h0 : rows.get? i = some (rows.getD i dtFill) := by
    rw [List.get?_eq_getElem?, List.getD_eq_getElem?_getD,
      List.getElem?_eq_getElem (show i < rows.length by omega)]
    rfl
  have hvs : mapO (fun k => (rows.get? (i + k)).map (fun r => r.2)) (List.range 12) =
      some ((List.range 12).map (fun k => (rows.getD (i + k) dtFill).2)) := by
    refine mapO_congr_some (fun k hk => ?_)
    have hk12 : k < 12 := List.mem_range.mp hk
    have hik : rows.get? (i + k) = some (rows.getD (i + k) dtFill) := by
      rw [List.get?_eq_getElem?, List.getD_eq_getElem?_getD,
        List.getElem?_eq_getElem (show i + k < rows.length by omega)]
      rfl
    rw [hik]
    rfl
  rw [write.group12?]
  show ((rows.get? i).bind fun r0 => _) = _
  rw [h0]
  show ((mapO _ (List.range 12)).bind fun vs => _) = _
  rw [hvs]
  rfl

theorem write_gensal_eq (rows : List (DT × ℚ)) (loc : String) (N : Nat)
    (hN : rows.length = 12 * N) :
    write.gensal rows loc = .ok (gensalLines rows loc N) := by
  have hdiv : (rows.length + 11) / 12 = N := by omega
  rw [write.gensal, write.groupStarts, hdiv, mapE_map]
  exact mapE_congr_ok (fun j hj => by
    have hj' : j < N := List.mem_range.mp hj
    have h12 : j * 12 + 12 ≤ rows.length := by omega
    rw [group12_eq h12, Nat.mul_comm j 12])

theorem write_tide_eq (rows : List (DT × ℚ)) (col : String) (N : Nat)
    (hN : rows.length = 12 * N) :
    write.tide col rows = .ok (tideLines col rows N) := by
  have hdiv : (rows.length + 11) / 12 = N := by omega
  rw [write.tide, write.groupStarts, hdiv, mapE_map]
  exact mapE_congr_ok (fun j hj => by
    have hj' : j < N := List.mem_range.mp hj
    have h12 : j * 12 + 12 ≤ rows.length := by omega
    rw [group12_eq h12, Nat.mul_comm j 12])

theorem melt_recAt (rows : List (DT × ℚ)) (N : Nat)
    (hN : rows.length = 12 * N)
    (hgrp : ∀ j ∈ List.range N, ∀ k ∈ List.range 12,
      (rows.getD (12 * j + k) dtFill).1 =
        ⟨(rows.getD (12 * j) dtFill).1.year, (rows.getD (12 * j) dtFill).1.month,
         (rows.getD (12 * j) dtFill).1.day, 2 * k⟩)
    (hvalid : ∀ r ∈ rows, validPd r.1.year r.1.month r.1.day = true)
    (hsorted : rows.Pairwise (fun a b => a.1.key < b.1.key)) :
    meltGensal ((List.range N).map (recAt rows)) =
      .ok ((List.range 12).flatMap (fun k => (List.range N).map (fun j => c4G rows j k))) ∧
    sortByKey ((List.range 12).flatMap
        (fun k => (List.range N).map (fun j => c4G rows j k)))
      = rows.map (fun r => (r.1.key, some (ofHundredths (round2 r.2)))) := by
  have hT : rows.map (fun r => (r.1.key, some (ofHundredths (round2 r.2))))
      = (List.range N).flatMap (fun j => (List.range 12).map (fun k => c4G rows j k)) := by
    rw [chunks12 _ dtFill N rows hN]
    refine flatMapCongr (fun j hj => ?_)
    refine List.map_congr_left (fun k hk => ?_)
    dsimp only
    rw [hgrp j hj k hk]
    rfl
  constructor
  · rw [meltGensal]
    rw [mapE_congr_ok (g := gRow) (fun row hrow => ?_)]
    · congr 1
      rw [mapFlatMap]
      refine flatMapCongr (fun k hk => ?_)
      dsimp only
      rw [List.map_map, List.map_map]
      refine List.map_congr_left (fun j hj => ?_)
      have hj' : j < N := List.mem_range.mp hj
      have hmemr : rows.getD (12 * j) dtFill ∈ rows := getDMem (by omega) dtFill
      show gRow ((recAt rows j).year, (recAt rows j).month, (recAt rows j).day, 2 * k,
        (recAt rows j).hours.getD k none) = c4G rows j k
      dsimp only [recAt, gRow, Option.getD_some]
      rw [getDMapRange _ _ (List.mem_range.mp hk)]
      rw [toDatetimeYMDH_natCast (hvalid _ hmemr)
        (by have := List.mem_range.mp hk; omega)]
      rfl
    · obtain ⟨k, hk, hmem2⟩ := List.mem_flatMap.mp hrow
      obtain ⟨r, hrmem, rfl⟩ := List.mem_map.mp hmem2
      obtain ⟨j, hj, rfl⟩ := List.mem_map.mp hrmem
      have hj' : j < N := List.mem_range.mp hj
      have hmemr : rows.getD (12 * j) dtFill ∈ rows := getDMem (by omega) dtFill
      dsimp only [recAt, gRow, Option.getD_some]
      rw [getDMapRange _ _ (List.mem_range.mp hk)]
      rw [toDatetimeYMDH_natCast (hvalid _ hmemr)
        (by have := List.mem_range.mp hk; omega)]
      rfl
  · refine sorted_perm_unique ?_ (sortByKey_sorted _) ?_
    · refine (sortByKey_perm _).trans ?_
      exact hT.symm ▸ transposePerm (c4G rows) 12 N
    · exact List.pairwise_map.mpr hsorted

theorem read_gensal_ok {lines : List String} {recs : List RecGensal}
    {rowsm : List (Nat × Option ℚ)}
    (h1 : mapE recGensal? ((lines.map rowTokens).filter (fun t => ¬ t.isEmpty)) = .ok recs)
    (h2 : meltGensal recs = .ok rowsm) :
    read.gensal lines = .ok ⟨"salinity", sortByKey rowsm⟩ ∧
    read.tide lines = .ok ⟨"salinity", sortByKey rowsm⟩ := by
  constructor
  · have hdef : read.gensal lines =
        (mapE recGensal? ((lines.map rowTokens).filter (fun t => ¬ t.isEmpty))).bind
          (fun recs => (meltGensal recs).bind
            (fun rows => .ok ⟨"salinity", sortByKey rows⟩)) := rfl
    rw [hdef, h1, bindE_ok]
    show (meltGensal recs).bind
      (fun rows => (Except.ok ⟨"salinity", sortByKey rows⟩ : Except Unit OTable)) =
      Except.ok ⟨"salinity", sortByKey rowsm⟩
    rw [h2, bindE_ok]
  · have hdef : read.tide lines =
        (mapE recGensal? ((lines.map rowTokens).filter (fun t => ¬ t.isEmpty))).bind
          (fun recs => (meltGensal recs).bind
            (fun rows => .ok ⟨"salinity", sortByKey rows⟩)) := rfl
    rw [hdef, h1, bindE_ok]
    show (meltGensal recs).bind
      (fun rows => (Except.ok ⟨"salinity", sortByKey rows⟩ : Except Unit OTable)) =
      Except.ok ⟨"salinity", sortByKey rowsm⟩
    rw [h2, bindE_ok]

theorem renderNat_bounds {rows : List (DT × ℚ)} (r : DT × ℚ) (hr : r ∈ rows)
    (hvalid : ∀ r ∈ rows, validPd r.1.year r.1.month r.1.day = true) :
    (renderNat r.1.month).length ≤ 2 ∧ (renderNat r.1.day).length ≤ 2 ∧
      (renderNat r.1.year).length ≤ 5 := by
  have hv := hvalid r hr
  simp only [validPd, Bool.and_eq_true, decide_eq_true_eq] at hv
  obtain ⟨⟨⟨⟨⟨h1, h2⟩, h3⟩, h4⟩, h5⟩, h6⟩ := hv
  have hdm := daysInMonth_le r.1.year r.1.month
  have hp2 : (10 : Nat) ^ 2 = 100 := by norm_num
  have hp5 : (10 : Nat) ^ 5 = 100000 := by norm_num
  exact ⟨renderNat_len_le (by norm_num) (by omega),
    renderNat_len_le (by norm_num) (by omega),
    renderNat_len_le (by norm_num) (by omega)⟩

theorem mapE_rec_gensal (rows : List (DT × ℚ)) (loc : String) (N : Nat)
    (hN : rows.length = 12 * N)
    (hvalid : ∀ r ∈ rows, validPd r.1.year r.1.month r.1.day = true)
    (hval : ∀ r ∈ rows, -1000 < round2 r.2 ∧ round2 r.2 < 10000)
    (hloc : loc.data ≠ []) (hlocw : ∀ c ∈ loc.data, isWsChar c = false) :
    mapE recGensal? (((gensalLines rows loc N).map rowTokens).filter
      (fun t => ¬ t.isEmpty)) = .ok ((List.range N).map (recAt rows)) := by
  have htok : ∀ j ∈ List.range N,
      rowTokens (String.mk (write.gensalLine (rows.getD (12 * j) dtFill).1
        ((List.range 12).map (fun k => (rows.getD (12 * j + k) dtFill).2)) loc)) =
      renderNat (rows.getD (12 * j) dtFill).1.month ::
        renderNat (rows.getD (12 * j) dtFill).1.day ::
        (((List.range 12).map (fun k => (rows.getD (12 * j + k) dtFill).2)).map
            (fun v => renderF2 (round2 v)) ++
          [renderNat (rows.getD (12 * j) dtFill).1.year, loc.data]) := by
    intro j hj
    have hj' : j < N := List.mem_range.mp hj
    obtain ⟨hm, hd, hy⟩ := renderNat_bounds (rows.getD (12 * j) dtFill)
      (getDMem (by omega) dtFill) hvalid
    refine rowTokens_gensalLine _ _ _ hm hd hy (fun v hv => ?_) hloc hlocw
    obtain ⟨k, hk, rfl⟩ := List.mem_map.mp hv
    have hk' : k < 12 := List.mem_range.mp hk
    obtain ⟨ha, hb⟩ := hval (rows.getD (12 * j + k) dtFill) (getDMem (by omega) dtFill)
    exact renderF2_len_le ha hb
  have hfil : ((gensalLines rows loc N).map rowTokens).filter (fun t => ¬ t.isEmpty)
      = (gensalLines rows loc N).map rowTokens := by
    refine List.filter_eq_self.mpr (fun tk hmem => ?_)
    obtain ⟨ln, hln, rfl⟩ := List.mem_map.mp hmem
    rw [gensalLines] at hln
    obtain ⟨j, hj, rfl⟩ := List.mem_map.mp hln
    rw [htok j hj]
    simp
  rw [hfil, gensalLines, List.map_map, mapE_map]
  refine mapE_congr_ok (fun j hj => ?_)
  have hj' : j < N := List.mem_range.mp hj
  show recGensal? (rowTokens (String.mk (write.gensalLine (rows.getD (12 * j) dtFill).1
    ((List.range 12).map (fun k => (rows.getD (12 * j + k) dtFill).2)) loc)))
    = Except.ok (recAt rows j)
  rw [htok j hj]
  have hcs : mapE (cellQ? [])
      (((List.range 12).map (fun k => (rows.getD (12 * j + k) dtFill).2)).map
        (fun v => renderF2 (round2 v)))
      = .ok (((List.range 12).map (fun k => (rows.getD (12 * j + k) dtFill).2)).map
        (fun v => some (ofHundredths (round2 v)))) := by
    rw [mapE_map]
    exact mapE_congr_ok (fun v _ => cellQ_renderF2 (round2 v))
  refine (recGensal_explicit _ _ _ _ _ (by simp) (cellQ_renderNat _) (cellQ_renderNat _)
    (cellQ_renderNat _) hcs).trans ?_
  rw [recAt, List.map_map]
  rfl

theorem mapE_rec_tide (rows : List (DT × ℚ)) (col : String) (N : Nat)
    (hN : rows.length = 12 * N)
    (hvalid : ∀ r ∈ rows, validPd r.1.year r.1.month r.1.day = true)
    (hval : ∀ r ∈ rows, -1000 < round2 r.2 ∧ round2 r.2 < 10000)
    (hcol : col.data ≠ []) (hcolw : ∀ c ∈ col.data, isWsChar c = false) :
    mapE recGensal? (((tideLines col rows N).map rowTokens).filter
      (fun t => ¬ t.isEmpty)) = .ok ((List.range N).map (recAt rows)) := by
  have htok : ∀ j ∈ List.range N,
      rowTokens (String.mk (write.tideLine (rows.getD (12 * j) dtFill).1
        ((List.range 12).map (fun k => (rows.getD (12 * j + k) dtFill).2)) col)) =
      renderNat (rows.getD (12 * j) dtFill).1.month ::
        renderNat (rows.getD (12 * j) dtFill).1.day ::
        (((List.range 12).map (fun k => (rows.getD (12 * j + k) dtFill).2)).map
            (fun v => renderF2 (round2 v)) ++
          [renderNat (rows.getD (12 * j) dtFill).1.year, col.data]) := by
    intro j hj
    have hj' : j < N := List.mem_range.mp hj
    obtain ⟨hm, hd, hy⟩ := renderNat_bounds (rows.getD (12 * j) dtFill)
      (getDMem (by omega) dtFill) hvalid
    refine rowTokens_tideLine _ _ _ hm hd hy (fun v hv => ?_) hcol hcolw
    obtain ⟨k, hk, rfl⟩ := List.mem_map.mp hv
    have hk' : k < 12 := List.mem_range.mp hk
    obtain ⟨ha, hb⟩ := hval (rows.getD (12 * j + k) dtFill) (getDMem (by omega) dtFill)
    exact renderF2_len_le ha hb
  have hfil : ((tideLines col rows N).map rowTokens).filter (fun t => ¬ t.isEmpty)
      = (tideLines col rows N).map rowTokens := by
    refine List.filter_eq_self.mpr (fun tk hmem => ?_)
    obtain ⟨ln, hln, rfl⟩ := List.mem_map.mp hmem
    rw [tideLines] at hln
    obtain ⟨j, hj, rfl⟩ := List.mem_map.mp hln
    rw [htok j hj]
    simp
  rw [hfil, tideLines, List.map_map, mapE_map]
  refine mapE_congr_ok (fun j hj => ?_)
  have hj' : j < N := List.mem_range.mp hj
  show recGensal? (rowTokens (String.mk (write.tideLine (rows.getD (12 * j) dtFill).1
    ((List.range 12).map (fun k => (rows.getD (12 * j + k) dtFill).2)) col)))
    = Except.ok (recAt rows j)
  rw [htok j hj]
  have hcs : mapE (cellQ? [])
      (((List.range 12).map (fun k => (rows.getD (12 * j + k) dtFill).2)).map
        (fun v => renderF2 (round2 v)))
      = .ok (((List.range 12).map (fun k => (rows.getD (12 * j + k) dtFill).2)).map
        (fun v => some (ofHundredths (round2 v)))) := by
    rw [mapE_map]
    exact mapE_congr_ok (fun v _ => cellQ_renderF2 (round2 v))
  refine (recGensal_explicit _ _ _ _ _ (by simp) (cellQ_renderNat _) (cellQ_renderNat _)
    (cellQ_renderNat _) hcs).trans ?_
  rw [recAt, List.map_map]
  rfl

/-- C4 (amended): for a 2-hour-spaced table of `N` whole days — strictly
increasing timestamps grouped twelve to a day with hours 0, 2, ..., 22,
dates in the pandas `Timestamp` range, every value rounding to a `%6.2f`
field strictly between -10.00 and 100.00 (so the fixed-width field keeps
its separating blank), and a nonempty whitespace-free location/column
label — writing with `write.gensal` (or `write.tide`) and re-reading
with `read.gensal` (or `read.tide`) reproduces exactly the original
timestamps paired with the values rounded to hundredths.  Without the
value-range restriction the claim fails: a 6-character field fuses with
its neighbour and the reader errors (see the counterexample). -/
theorem C4_theorem (rows : List (DT × ℚ)) (loc col : String) (N : Nat)
    (hN : rows.length = 12 * N)
    (hgrp : ∀ j ∈ List.range N, ∀ k ∈ List.range 12,
      (rows.getD (12 * j + k) dtFill).1 =
        ⟨(rows.getD (12 * j) dtFill).1.year, (rows.getD (12 * j) dtFill).1.month,
         (rows.getD (12 * j) dtFill).1.day, 2 * k⟩)
    (hvalid : ∀ r ∈ rows, validPd r.1.year r.1.month r.1.day = true)
    (hval : ∀ r ∈ rows, -1000 < round2 r.2 ∧ round2 r.2 < 10000)
    (hsorted : rows.Pairwise (fun a b => a.1.key < b.1.key))
    (hloc : loc.data ≠ []) (hlocw : ∀ c ∈ loc.data, isWsChar c = false)
    (hcol : col.data ≠ []) (hcolw : ∀ c ∈ col.data, isWsChar c = false) :
    (write.gensal rows loc).bind read.gensal =
      .ok ⟨"salinity", rows.map (fun r => (r.1.key, some (ofHundredths (round2 r.2))))⟩ ∧
    (write.tide col rows).bind read.tide =
      .ok ⟨"salinity", rows.map (fun r => (r.1.key, some (ofHundredths (round2 r.2))))⟩ := by
  obtain ⟨hmelt, hsort⟩ := melt_recAt rows N hN hgrp hvalid hsorted
  constructor
  · rw [write_gensal_eq rows loc N hN, bindE_ok]
    rw [(read_gensal_ok (mapE_rec_gensal rows loc N hN hvalid hval hloc hlocw) hmelt).1]
    rw [hsort]
  · rw [write_tide_eq rows col N hN, bindE_ok]
    rw [(read_gensal_ok (mapE_rec_tide rows col N hN hvalid hval hcol hcolw) hmelt).2]
    rw [hsort]

/-- A 2-hour-spaced table of one whole day all of whose values are
100.0: each `%6.2f` field prints as the full six characters `100.00`,
leaving no separating blank. -/
def c4bad : List (DT × ℚ) :=
  (List.range 12).map (fun k => (⟨2001, 1, 1, 2 * k⟩, mkRat 100 1))

set_option maxRecDepth 4000 in
/-- C4 (counterexample to the unrestricted claim): on a legitimate
2-hour-spaced one-day table with values 100.0 both writers succeed, but
the day field and the twelve value fields fuse into one whitespace-free
run, so re-reading raises instead of reproducing the table. -/
theorem C4_counterexample :
    c4bad.length = 12 ∧
    (∀ r ∈ c4bad, validPd r.1.year r.1.month r.1.day = true) ∧
    c4bad.Pairwise (fun a b => a.1.key < b.1.key) ∧
    (write.gensal c4bad "OffGalves").bind read.gensal = .error () ∧
    (write.tide "tide_ft" c4bad).bind read.tide = .error () := by decide

/-- A 2-hour-spaced table of one whole day with in-range values
0.50, 2.00, 3.50, ..., 17.00. -/
def c4good : List (DT × ℚ) :=
  (List.range 12).map (fun k => (⟨2001, 1, 1, 2 * k⟩, mkRat (3 * k + 1) 2))

set_option maxRecDepth 4000 in
/-- C4 witness: the amended round trip applied to the concrete one-day
table `c4good`. -/
theorem C4_witness :
    (write.gensal c4good "OffGalves").bind read.gensal =
      .ok ⟨"salinity", c4good.map (fun r => (r.1.key, some (ofHundredths (round2 r.2))))⟩ ∧
    (write.tide "tide_ft" c4good).bind read.tide =
      .ok ⟨"salinity", c4good.map (fun r => (r.1.key, some (ofHundredths (round2 r.2))))⟩ :=
  C4_theorem c4good "OffGalves" "tide_ft" 1 (by decide) (by decide) (by decide)
    (by decide) (by decide) (by decide) (by decide) (by decide) (by decide)

end TB
